import Mathlib

/-!
# Verification of the Mythic+ group-maker engine

A shallow embedding of `src/index.mjs` (the second, class-aware bot variant;
the first variant's solver and toggle logic are identical up to the `classes`
payload).  JavaScript objects become Lean structures, the signups object
becomes an association list in insertion order, JS `Set`s of roles become
duplicate-free lists in insertion order, and every call to `Math.random` is
modelled by consuming one number from an explicit stream `List Nat` (an empty
stream yields `0`); theorems quantify over all streams, hence over all
randomized runs.  Fallible handler paths return `Except`; the bot persists
state only on success paths, so a returned error models "persisted state
unchanged".
-/

/-- The three roles of `'TANK' | 'HEAL' | 'DPS'`. -/
inductive Role where
  | TANK
  | HEAL
  | DPS
deriving DecidableEq, Repr

/-- The per-role chosen class object `{ TANK: v|null, HEAL: v|null, DPS: v|null }`. -/
structure Classes where
  tank : Option String
  heal : Option String
  dps : Option String
deriving DecidableEq, Repr

/-- The `{TANK:null, HEAL:null, DPS:null}` default classes object. -/
def emptyClasses : Classes := ⟨none, none, none⟩

/-- Read `classes[roleKey]`. -/
def Classes.get (c : Classes) : Role → Option String
  | .TANK => c.tank
  | .HEAL => c.heal
  | .DPS => c.dps

/-- Write `classes[roleKey] = v`. -/
def Classes.set (c : Classes) : Role → Option String → Classes
  | .TANK, v => { c with tank := v }
  | .HEAL, v => { c with heal := v }
  | .DPS, v => { c with dps := v }

/-- One signup entry `{ roles: [...], displayName, classes? }`; `classes` is
absent on entries written by the first bot variant, hence an `Option`. -/
structure SignupInfo where
  roles : List Role
  displayName : String
  classes : Option Classes
deriving DecidableEq, Repr

/-- The signups object: participant id -> signup entry, keys in insertion
order.  A JS object's keys are unique; theorems that need this take it as a
`Nodup` hypothesis. -/
abbrev Signups := List (String × SignupInfo)

/-- `new Set(list)` materialised as a list: keep the first occurrence of each
element, in insertion order. -/
def jsSetOfList {α : Type _} [DecidableEq α] : List α → List α
  | [] => []
  | a :: t => a :: ((jsSetOfList t).filter (fun x => decide (x ≠ a)))

/-- `WOW_CLASSES` (ids only; labels and emoji are presentation glue). -/
def WOW_CLASSES : List String :=
  ["WARRIOR", "PALADIN", "HUNTER", "ROGUE", "PRIEST", "DEATH_KNIGHT", "SHAMAN",
   "MAGE", "WARLOCK", "MONK", "DRUID", "DEMON_HUNTER", "EVOKER"]

/-- `ROLE_CLASSES`: the static role -> allowed class ids table. -/
def ROLE_CLASSES : Role → List String
  | .TANK => ["WARRIOR", "PALADIN", "DEATH_KNIGHT", "MONK", "DRUID", "DEMON_HUNTER"]
  | .HEAL => ["PALADIN", "PRIEST", "SHAMAN", "MONK", "DRUID", "EVOKER"]
  | .DPS => WOW_CLASSES

/-! ## Randomness

`Math.random()` draws are modelled by a stream of naturals; a draw used as
`Math.floor(Math.random() * bound)` consumes one element and reduces it
`% bound`, so each drawn index is in range whenever `bound > 0`. -/

/-- One `Math.floor(Math.random() * bound)` draw from the stream. -/
def randBelow (bound : Nat) : List Nat → Nat × List Nat
  | [] => (0, [])
  | x :: xs => (x % bound, xs)

/-- `[arr[i], arr[j]] = [arr[j], arr[i]]`: exchange two positions
(out-of-range indices leave the list unchanged; the shuffle below only uses
in-range indices). -/
def listSwap {α : Type _} (l : List α) (i j : Nat) : List α :=
  match l[i]?, l[j]? with
  | some a, some b => (l.set i b).set j a
  | _, _ => l

/-- The Fisher–Yates loop of `shuffle`, with `i` counting down. -/
def fyGo {α : Type _} : List α → Nat → List Nat → List α × List Nat
  | l, 0, rng => (l, rng)
  | l, i + 1, rng =>
    let jr := randBelow (i + 2) rng
    fyGo (listSwap l (i + 1) jr.1) i jr.2

/-- `shuffle(arr)`: in-place Fisher–Yates from `arr.length - 1` down to `1`. -/
def shuffle {α : Type _} (l : List α) (rng : List Nat) : List α × List Nat :=
  fyGo l (l.length - 1) rng

/-! ## Solver data -/

/-- A solver-side player record `{ id, name, roles, classes }` built from one
signup entry; `roles` is the JS `Set` as a duplicate-free list. -/
structure Player where
  id : String
  name : String
  roles : List Role
  classes : Classes
deriving DecidableEq, Repr

/-- One player record from `Object.entries(signups).map(...)`:
`displayName || mention` and `classes: info.classes || {}`. -/
def mkPlayer (id : String) (info : SignupInfo) : Player :=
  { id := id
    name := if info.displayName = "" then "<@" ++ id ++ ">" else info.displayName
    roles := jsSetOfList info.roles
    classes := info.classes.getD emptyClasses }

/-- The `players` array of `rollGroups`. -/
def playersOf (signups : Signups) : List Player :=
  signups.map (fun e => mkPlayer e.1 e.2)

/-- `players.filter(p => p.roles.has(role)).length`. -/
def countRole (ps : List Player) (r : Role) : Nat :=
  (ps.filter (fun p => decide (r ∈ p.roles))).length

/-- `maxByCounts = Math.min(tanks, heals, floor(dps/3), floor(players/5))`. -/
def maxByCounts (ps : List Player) : Nat :=
  min (min (countRole ps .TANK) (countRole ps .HEAL))
    (min (countRole ps .DPS / 3) (ps.length / 5))

/-- `targetGroups = desiredGroups ? Math.min(desiredGroups, maxByCounts) :
maxByCounts`.  JS truthiness: `desiredGroups = 0` (and `null`) selects the
`maxByCounts` branch. -/
def targetGroupsOf (ps : List Player) (desired : Option Int) : Int :=
  match desired with
  | some d => if d = 0 then (maxByCounts ps : Int) else min d (maxByCounts ps : Int)
  | none => (maxByCounts ps : Int)

/-- A solver group under construction / in a result: `{ tank, heal, dps: [] }`. -/
structure SolverGroup where
  tank : Option Player
  heal : Option Player
  dps : List Player
deriving DecidableEq, Repr

/-- A completed attempt `{ score, groups, bench }`. -/
structure Attempt where
  score : Nat
  groups : List SolverGroup
  bench : List Player
deriving DecidableEq, Repr

/-- The value returned by `rollGroups`: `{ groups, bench, reason }`. -/
structure RollResult where
  groups : List SolverGroup
  bench : List Player
  reason : Option String
deriving DecidableEq, Repr

/-- The `reason` string of the infeasible-counts early return. -/
def noGroupsMsg (tanks heals dps total : Nat) : String :=
  "Cannot form any full groups (tanks=" ++ toString tanks ++ ", heals=" ++
    toString heals ++ ", dps=" ++ toString dps ++ ", players=" ++
    toString total ++ ")."

/-- The `reason` string of the exhausted-budget return. -/
def budgetMsg (attempts : Nat) : String :=
  "Tried " ++ toString attempts ++
    " solves but couldn\x27t find a valid assignment. Role distribution is probably too tight."

/-- The `candidates` array inside `pick`: unused pool members eligible for
the role. -/
def pickCands (pool : List Player) (used : List String) (role : Role) : List Player :=
  pool.filter (fun p => decide (role ∈ p.roles ∧ p.id ∉ used))

/-- `pick(role)`: choose a uniformly random unused `role`-eligible player from
the pool, or `null`; no randomness is consumed when no candidate exists. -/
def pick (pool : List Player) (used : List String) (role : Role) (rng : List Nat) :
    Option Player × List Nat :=
  if (pickCands pool used role).isEmpty then (none, rng)
  else
    ((pickCands pool used role)[(randBelow (pickCands pool used role).length rng).1]?,
      (randBelow (pickCands pool used role).length rng).2)

/-- The tanks-and-heals loop: one `(tank, heal)` pair per group, aborting the
attempt (`none`) as soon as a `pick` comes back empty, exactly like the
`break` + `groups.some(gr => !gr.tank || !gr.heal)` check. -/
def assignTH (pool : List Player) : Nat → List String → List Nat →
    Option (List (Player × Player)) × List String × List Nat
  | 0, used, rng => (some [], used, rng)
  | n + 1, used, rng =>
    match pick pool used .TANK rng with
    | (none, rng') => (none, used, rng')
    | (some t, rng') =>
      match pick pool (t.id :: used) .HEAL rng' with
      | (none, rng'') => (none, t.id :: used, rng'')
      | (some h, rng'') =>
        match assignTH pool n (h.id :: t.id :: used) rng'' with
        | (some rest, usedF, rngF) => (some ((t, h) :: rest), usedF, rngF)
        | (none, usedF, rngF) => (none, usedF, rngF)

/-- The `top` shortlist inside `fillDps`: unused candidates sorted (stably)
by ascending count of eligible roles, first ten taken. -/
def dpsShortlist (cands : List Player) (used : List String) : List Player :=
  ((cands.filter (fun p => decide (p.id ∉ used))).insertionSort
    (fun a b => a.roles.length ≤ b.roles.length)).take 10

/-- The `for (const p of top)` loop inside `fillDps`, abstracted over the
recursive descent `rec p rng` into the next slot: try each shortlisted
candidate in order, undoing (by simply not keeping the extended state) on
failure. -/
def tryCands {R : Type _} (rec : Player → List Nat → Option R × List Nat) :
    List Player → List Nat → Option R × List Nat
  | [], rng => (none, rng)
  | p :: rest, rng =>
    match rec p rng with
    | (some res, rng') => (some res, rng')
    | (none, rng') => tryCands rec rest rng'

/-- `fillDps(groupIndex, slotIndex)`, the backtracking DPS search.  The
mutable `groups[..].dps` arrays and the `used` set are threaded explicitly:
`done` holds finished groups' dps lists, `cur` the current group's partial
one.  `n` is structural fuel kept equal to `(total - gi) * 4 + (3 - si)`,
which strictly decreases along every recursive call, so with the initial
fuel of `4 * total + 3` the fuel never runs out and the function computes
exactly the JS recursion.  JS `Array.prototype.sort` is stable, which the
(stable) insertion sort models. -/
def fillDpsGo (cands : List Player) (total : Nat) :
    Nat → Nat → Nat → List String → List (List Player) → List Player → List Nat →
    Option (List (List Player) × List String) × List Nat
  | 0, gi, _, used, done, _, rng =>
    if total ≤ gi then (some (done, used), rng) else (none, rng)
  | n + 1, gi, si, used, done, cur, rng =>
    if total ≤ gi then (some (done, used), rng)
    else if 3 ≤ si then fillDpsGo cands total n (gi + 1) 0 used (done ++ [cur]) [] rng
    else
      tryCands
        (fun p r => fillDpsGo cands total n gi (si + 1) (p.id :: used) done (cur ++ [p]) r)
        (shuffle (dpsShortlist cands used) rng).1 (shuffle (dpsShortlist cands used) rng).2

/-- The `dpsCandidates` array: every DPS-eligible pool member. -/
def dpsCandsOf (pool : List Player) : List Player :=
  pool.filter (fun p => decide (Role.DPS ∈ p.roles))

/-- One iteration of the attempt loop: reshuffle, tanks+heals, dps fill;
`none` when the attempt is discarded.  A successful attempt records groups,
bench and score (`used.size`; every insertion into `used` is of a fresh id,
so the list length is the set size). -/
def attemptOnce (players : List Player) (target : Nat) (rng : List Nat) :
    Option Attempt × List Nat :=
  match assignTH (shuffle players rng).1 target [] (shuffle players rng).2 with
  | (none, _, rng₂) => (none, rng₂)
  | (some th, used₁, rng₂) =>
    match fillDpsGo (dpsCandsOf (shuffle players rng).1) target (4 * target + 3)
        0 0 used₁ [] [] rng₂ with
    | (none, rng₃) => (none, rng₃)
    | (some (res, used₂), rng₃) =>
      (some { score := used₂.length
              groups := (th.zip res).map (fun pr =>
                { tank := some pr.1.1, heal := some pr.1.2, dps := pr.2 })
              bench := (shuffle players rng).1.filter (fun p => decide (p.id ∉ used₂)) }, rng₃)

/-- The `for (attempt …)` loop with its best-so-far state, including the
early `break` on a perfect score. -/
def solveLoop (players : List Player) (target : Nat) :
    Nat → Option Attempt → List Nat → Option Attempt × List Nat
  | 0, best, rng => (best, rng)
  | k + 1, best, rng =>
    match attemptOnce players target rng with
    | (none, rng') => solveLoop players target k best rng'
    | (some att, rng') =>
      match best with
      | none =>
        if att.score = target * 5 then (some att, rng')
        else solveLoop players target k (some att) rng'
      | some b =>
        if b.score < att.score then
          if att.score = target * 5 then (some att, rng')
          else solveLoop players target k (some att) rng'
        else solveLoop players target k best rng'

/-- `rollGroups(signups, desiredGroups, attempts)`. -/
def rollGroups (signups : Signups) (desiredGroups : Option Int) (attempts : Nat)
    (rng : List Nat) : RollResult :=
  if targetGroupsOf (playersOf signups) desiredGroups ≤ 0 then
    { groups := []
      bench := playersOf signups
      reason := some (noGroupsMsg (countRole (playersOf signups) .TANK)
        (countRole (playersOf signups) .HEAL)
        (countRole (playersOf signups) .DPS) (playersOf signups).length) }
  else
    match (solveLoop (playersOf signups)
        (targetGroupsOf (playersOf signups) desiredGroups).toNat attempts none rng).1 with
    | none =>
      { groups := [], bench := playersOf signups, reason := some (budgetMsg attempts) }
    | some best => { groups := best.groups, bench := best.bench, reason := none }

/-- Replay of the attempt loop that only reports whether some attempt in the
budget produced a complete assignment (tanks, heals and all dps slots);
consumes randomness exactly as `solveLoop` does attempt by attempt. -/
def anySuccess (players : List Player) (target : Nat) : Nat → List Nat → Bool
  | 0, _ => false
  | k + 1, rng =>
    match attemptOnce players target rng with
    | (some _, _) => true
    | (none, rng') => anySuccess players target k rng'

/-- Replay reporting whether some attempt in the budget at least assigned a
tank and a heal to every group (the tanks-and-heals phase succeeded), even if
its dps fill then failed; `true` is absorbing, so the replay may stop at the
first such attempt. -/
def anyFullTH (players : List Player) (target : Nat) : Nat → List Nat → Bool
  | 0, _ => false
  | k + 1, rng =>
    match assignTH (shuffle players rng).1 target [] (shuffle players rng).2 with
    | (some _, _, _) => true
    | (none, _, rng₂) => anyFullTH players target k rng₂

/-! ## Draft model and swap -/

/-- A draft player reference `{ id, name, roles: [...], classes }`, an
immutable snapshot copied out of the solver result. -/
structure DraftPlayer where
  id : String
  name : String
  roles : List Role
  classes : Classes
deriving DecidableEq, Repr

/-- A draft group `{ tank, heal, dps1, dps2, dps3 }`, each slot nullable. -/
structure DraftGroup where
  tank : Option DraftPlayer
  heal : Option DraftPlayer
  dps1 : Option DraftPlayer
  dps2 : Option DraftPlayer
  dps3 : Option DraftPlayer
deriving DecidableEq, Repr

/-- A draft `{ createdAt, groups, bench }`. -/
structure Draft where
  createdAt : Nat
  groups : List DraftGroup
  bench : List DraftPlayer
deriving DecidableEq, Repr

/-- Copy one solver player into a draft reference. -/
def toDraftPlayer (p : Player) : DraftPlayer :=
  { id := p.id, name := p.name, roles := p.roles, classes := p.classes }

/-- `draftFromResult(result)`; `Date.now()` is the explicit `now` argument. -/
def draftFromResult (now : Nat) (result : RollResult) : Draft :=
  { createdAt := now
    groups := result.groups.map (fun g =>
      { tank := g.tank.map toDraftPlayer
        heal := g.heal.map toDraftPlayer
        dps1 := g.dps[0]?.map toDraftPlayer
        dps2 := g.dps[1]?.map toDraftPlayer
        dps3 := g.dps[2]?.map toDraftPlayer })
    bench := result.bench.map toDraftPlayer }

/-- The five group slot names, in the scan order of `findPlayerInDraft`. -/
inductive GSlot where
  | tank
  | heal
  | dps1
  | dps2
  | dps3
deriving DecidableEq, Repr

/-- The list `['tank', 'heal', 'dps1', 'dps2', 'dps3']`. -/
def gslots : List GSlot := [.tank, .heal, .dps1, .dps2, .dps3]

/-- Read `g[slot]`. -/
def slotGet (g : DraftGroup) : GSlot → Option DraftPlayer
  | .tank => g.tank
  | .heal => g.heal
  | .dps1 => g.dps1
  | .dps2 => g.dps2
  | .dps3 => g.dps3

/-- Write `g[slot] = v`. -/
def slotSet (g : DraftGroup) : GSlot → Option DraftPlayer → DraftGroup
  | .tank, v => { g with tank := v }
  | .heal, v => { g with heal := v }
  | .dps1, v => { g with dps1 := v }
  | .dps2, v => { g with dps2 := v }
  | .dps3, v => { g with dps3 := v }

/-- A location in a draft: `{ where:'group', gi, slot }` or `{ where:'bench', bi }`. -/
inductive Loc where
  | group (gi : Nat) (slot : GSlot)
  | bench (bi : Nat)
deriving DecidableEq, Repr

/-- Scan one group's slots in order for a player id. -/
def findInGroup (g : DraftGroup) (uid : String) : Option GSlot :=
  gslots.find? (fun s =>
    match slotGet g s with
    | some p => decide (p.id = uid)
    | none => false)

/-- Scan the group list (carrying the running index `gi`). -/
def findInGroups : List DraftGroup → Nat → String → Option Loc
  | [], _, _ => none
  | g :: gs, gi, uid =>
    match findInGroup g uid with
    | some s => some (.group gi s)
    | none => findInGroups gs (gi + 1) uid

/-- Scan the bench (carrying the running index `bi`). -/
def findBench : List DraftPlayer → Nat → String → Option Loc
  | [], _, _ => none
  | p :: ps, bi, uid =>
    if p.id = uid then some (.bench bi) else findBench ps (bi + 1) uid

/-- `findPlayerInDraft(draft, userId)`: groups first, then the bench. -/
def findPlayerInDraft (d : Draft) (uid : String) : Option Loc :=
  match findInGroups d.groups 0 uid with
  | some l => some l
  | none => findBench d.bench 0 uid

/-- Read the occupant of a location (`none` when the slot is empty or the
location is out of range). -/
def getAt (d : Draft) : Loc → Option DraftPlayer
  | .group gi s => (d.groups[gi]?).bind (fun g => slotGet g s)
  | .bench bi => d.bench[bi]?

/-- Write a player into a location (`container[key] = v`).  The bench holds
bare players, so writing `none` to a bench index — which the swap handler
never does, since both occupants were found — leaves the bench unchanged. -/
def setAt (d : Draft) : Loc → Option DraftPlayer → Draft
  | .group gi s, v =>
    match d.groups[gi]? with
    | some g => { d with groups := d.groups.set gi (slotSet g s v) }
    | none => d
  | .bench bi, v =>
    match v with
    | some p => { d with bench := d.bench.set bi p }
    | none => d

/-- The slot-name string a location imposes: a group slot's own name, or
`'bench'`. -/
inductive SlotName where
  | tank
  | heal
  | dps1
  | dps2
  | dps3
  | bench
deriving DecidableEq, Repr

/-- `slotName` of a location's `getRef`. -/
def slotNameOf : Loc → SlotName
  | .group _ .tank => .tank
  | .group _ .heal => .heal
  | .group _ .dps1 => .dps1
  | .group _ .dps2 => .dps2
  | .group _ .dps3 => .dps3
  | .bench _ => .bench

/-- `roleAllowedForSlot(player, slot)`: `dps*` names require `DPS`, `tank`
requires `TANK`, `heal` requires `HEAL`, anything else (including `bench`)
is allowed; a missing player is allowed anywhere. -/
def roleAllowedForSlot (player : Option DraftPlayer) (slot : SlotName) : Bool :=
  match player with
  | none => true
  | some p =>
    match slot with
    | .tank => decide (Role.TANK ∈ p.roles)
    | .heal => decide (Role.HEAL ∈ p.roles)
    | .dps1 => decide (Role.DPS ∈ p.roles)
    | .dps2 => decide (Role.DPS ∈ p.roles)
    | .dps3 => decide (Role.DPS ∈ p.roles)
    | .bench => true

/-! ## Session state and handlers -/

/-- A session record (the engine-relevant fields). -/
structure Session where
  id : String
  title : String
  description : String
  lockAt : Option Nat
  signups : Signups
  createdAt : Nat
  lastDraft : Option Draft
deriving DecidableEq, Repr

/-- `session.lockAt && Date.now() >= session.lockAt`: the deadline must be
truthy (non-null and nonzero) and passed. -/
def isLockedNow (lockAt : Option Nat) (now : Nat) : Bool :=
  match lockAt with
  | none => false
  | some t => decide (t ≠ 0) && decide (t ≤ now)

/-- `signups[k]` lookup on the association list. -/
def alistGet {α : Type _} (l : List (String × α)) (k : String) : Option α :=
  (l.find? (fun e => decide (e.1 = k))).map (·.2)

/-- `signups[k] = v`: replace in place when the key exists (JS objects keep
key order), else append. -/
def alistSet {α : Type _} (l : List (String × α)) (k : String) (v : α) :
    List (String × α) :=
  if (l.find? (fun e => decide (e.1 = k))).isSome then
    l.map (fun e => if e.1 = k then (k, v) else e)
  else l ++ [(k, v)]

/-- `hydrateDraftClassesFromSignups`' per-player `attach`: refresh the class
snapshot from the live signups when the entry has a `classes` object. -/
def hydratePlayer (signups : Signups) (p : DraftPlayer) : DraftPlayer :=
  match alistGet signups p.id with
  | some info =>
    match info.classes with
    | some c => { p with classes := c }
    | none => p
  | none => p

/-- Apply `attach` to a whole group. -/
def hydrateGroup (signups : Signups) (g : DraftGroup) : DraftGroup :=
  { tank := g.tank.map (hydratePlayer signups)
    heal := g.heal.map (hydratePlayer signups)
    dps1 := g.dps1.map (hydratePlayer signups)
    dps2 := g.dps2.map (hydratePlayer signups)
    dps3 := g.dps3.map (hydratePlayer signups) }

/-- `hydrateDraftClassesFromSignups(session, draft)` as a pure draft map. -/
def hydrateDraft (signups : Signups) (d : Draft) : Draft :=
  { d with groups := d.groups.map (hydrateGroup signups)
           bench := d.bench.map (hydratePlayer signups) }

/-- Outcome reported by the `/mplus swap` handler. -/
inductive SwapReply where
  | noDraft
  | notInDraft
  | roleMismatch
  | swapped
deriving DecidableEq, Repr

/-- The `/mplus swap` subcommand on a session: locate both ids, run the role
checks unless forced, exchange the two references, rehydrate classes, store
the draft back.  Rejections return the session unchanged (the bot replies
and returns before mutating / saving). -/
def mplusSwap (s : Session) (aId bId : String) (force : Bool) : Session × SwapReply :=
  match s.lastDraft with
  | none => (s, .noDraft)
  | some draft =>
    match findPlayerInDraft draft aId, findPlayerInDraft draft bId with
    | some aLoc, some bLoc =>
      let aPlayer := getAt draft aLoc
      let bPlayer := getAt draft bLoc
      let aOk := if slotNameOf bLoc = .bench then true
        else roleAllowedForSlot aPlayer (slotNameOf bLoc)
      let bOk := if slotNameOf aLoc = .bench then true
        else roleAllowedForSlot bPlayer (slotNameOf aLoc)
      if !force && (!aOk || !bOk) then (s, .roleMismatch)
      else
        let d₁ := setAt (setAt draft aLoc bPlayer) bLoc aPlayer
        let d₂ := hydrateDraft s.signups d₁
        ({ s with lastDraft := some d₂ }, .swapped)
    | _, _ => (s, .notInDraft)

/-- `/mplus preview`: roll groups from the current signups and store the
draft (the solver and the draft store are not gated by the lock). -/
def mplusPreview (s : Session) (groupsWanted : Option Int) (attempts : Nat)
    (rng : List Nat) (now : Nat) : Session :=
  { s with lastDraft := some (draftFromResult now
      (rollGroups s.signups groupsWanted attempts rng)) }

/-- Errors surfaced by the roster-mutating interaction handlers. -/
inductive OpError where
  | locked
  | roleNotEligible
  | invalidSubAttribute
deriving DecidableEq, Repr

/-- The toggle core: build the JS `Set` from the stored role list, delete
the role if present else add it, spread back to a list. -/
def toggledRoles (stored : List Role) (role : Role) : List Role :=
  if role ∈ jsSetOfList stored then
    (jsSetOfList stored).filter (fun r => decide (r ≠ role))
  else jsSetOfList stored ++ [role]

/-- The role-toggle button: lock gate, ensure a signup entry (normalising a
missing `classes`), flip the role in the set, refresh the display name. -/
def toggleHandler (s : Session) (now : Nat) (uid dn : String) (role : Role) :
    Except OpError Session :=
  if isLockedNow s.lockAt now then .error .locked
  else
    let info0 := (alistGet s.signups uid).getD
      { roles := [], displayName := dn, classes := some emptyClasses }
    let info1 := { info0 with classes := some (info0.classes.getD emptyClasses) }
    let info2 := { info1 with roles := toggledRoles info1.roles role, displayName := dn }
    .ok { s with signups := alistSet s.signups uid info2 }

/-- The leave button: lock gate, then delete the signup entry. -/
def leaveHandler (s : Session) (now : Nat) (uid : String) : Except OpError Session :=
  if isLockedNow s.lockAt now then .error .locked
  else .ok { s with signups := s.signups.filter (fun e => decide (e.1 ≠ uid)) }

/-- The class select menu: lock gate, ensure the entry (updating the display
name and normalising `classes`), require the role to be eligible, require the
value to be `'UNSET'` or in `ROLE_CLASSES[role]`, then store it (`'UNSET'`
clears).  On a rejection nothing is saved, so the error carries no state. -/
def classSelectHandler (s : Session) (now : Nat) (uid dn : String) (roleKey : Role)
    (value : String) : Except OpError Session :=
  if isLockedNow s.lockAt now then .error .locked
  else
    let info0 := (alistGet s.signups uid).getD
      { roles := [], displayName := dn, classes := some emptyClasses }
    let info1 :=
      { info0 with displayName := dn, classes := some (info0.classes.getD emptyClasses) }
    if roleKey ∉ jsSetOfList info1.roles then .error .roleNotEligible
    else if value ≠ "UNSET" ∧ value ∉ ROLE_CLASSES roleKey then .error .invalidSubAttribute
    else
      let cls := (info1.classes.getD emptyClasses).set roleKey
        (if value = "UNSET" then none else some value)
      let info2 := { info1 with classes := some cls }
      .ok { s with signups := alistSet s.signups uid info2 }

/-- The eligible-role set currently stored for a participant (empty when the
participant has no signup entry). -/
def rolesOf (s : Session) (uid : String) : List Role :=
  ((alistGet s.signups uid).map (·.roles)).getD []

/-- The participant ids held by the slots of one solver group, in slot
order. -/
def slotIdsOfGroup (g : SolverGroup) : List String :=
  (g.tank.toList ++ g.heal.toList ++ g.dps).map (·.id)

/-- All participant ids occurring in a solver result: every group slot, then
the bench. -/
def resultIds (r : RollResult) : List String :=
  r.groups.flatMap slotIdsOfGroup ++ r.bench.map (·.id)

/-- The stored class for a role (missing entry or missing classes reads as
unset). -/
def classOf (s : Session) (uid : String) (r : Role) : Option String :=
  match alistGet s.signups uid with
  | some i => (i.classes.getD emptyClasses).get r
  | none => none

/-! ## Concrete rosters used as witnesses and counterexamples -/

/-- A minimal feasible roster: one tank, one heal, three dps. -/
def exFullGroup : Signups :=
  [("t", { roles := [.TANK], displayName := "T", classes := none }),
   ("h", { roles := [.HEAL], displayName := "H", classes := none }),
   ("d1", { roles := [.DPS], displayName := "D1", classes := none }),
   ("d2", { roles := [.DPS], displayName := "D2", classes := none }),
   ("d3", { roles := [.DPS], displayName := "D3", classes := none })]

/-- A roster with no HEAL-eligible participant (the spec's concrete
no-solution scenario). -/
def exNoHeal : Signups :=
  [("t", { roles := [.TANK], displayName := "T", classes := none }),
   ("d1", { roles := [.DPS], displayName := "D1", classes := none }),
   ("d2", { roles := [.DPS], displayName := "D2", classes := none }),
   ("d3", { roles := [.DPS], displayName := "D3", classes := none })]

/-- A roster whose only tank and only heal are also two of its four
dps-eligible players: every attempt assigns the tank and heal slots but can
never fill three dps slots, so the budget runs out with no complete
attempt even though the tanks-and-heals phase always succeeds. -/
def exTHBlocked : Signups :=
  [("a", { roles := [.TANK, .DPS], displayName := "A", classes := none }),
   ("b", { roles := [.HEAL, .DPS], displayName := "B", classes := none }),
   ("c", { roles := [.DPS], displayName := "C", classes := none }),
   ("d", { roles := [.DPS], displayName := "D", classes := none }),
   ("e", { roles := [], displayName := "E", classes := none })]

/-! ## Concrete sessions and drafts used by witnesses and counterexamples -/

/-- The ids inserted into `used` by the tanks-and-heals loop. -/
def thIds (th : List (Player × Player)) : List String :=
  th.flatMap (fun pr => [pr.1.id, pr.2.id])

/-- All ids a completed attempt accounts for: group slots, then bench. -/
def attemptIds (att : Attempt) : List String :=
  att.groups.flatMap slotIdsOfGroup ++ att.bench.map (·.id)

/-- A small unlocked session with one signed-up participant. -/
def exToggleS : Session :=
  { id := "s1", title := "w", description := "", lockAt := none,
    signups := [("u", { roles := [.TANK], displayName := "U", classes := none })],
    createdAt := 0, lastDraft := none }

/-- The session after one HEAL toggle. -/
def exToggleS1 : Session :=
  match toggleHandler exToggleS 5 "u" "U" Role.HEAL with
  | .ok s => s
  | .error _ => exToggleS

/-- The session after a second HEAL toggle. -/
def exToggleS2 : Session :=
  match toggleHandler exToggleS1 6 "u" "V" Role.HEAL with
  | .ok s => s
  | .error _ => exToggleS1

/-- A session whose lock deadline is the (falsy) epoch 0. -/
def exLockedZero : Session :=
  { id := "s0", title := "w", description := "", lockAt := some 0,
    signups := [("u", { roles := [.TANK], displayName := "U", classes := none })],
    createdAt := 0, lastDraft := none }

/-- What the falsy-locked toggle actually produces: the roster mutated. -/
def exLockedZeroToggled : Session :=
  { exLockedZero with signups :=
      [("u", { roles := [.TANK, .HEAL], displayName := "U",
               classes := some emptyClasses })] }

/-- The same session with a real (truthy) lock deadline. -/
def exLocked50 : Session := { exLockedZero with lockAt := some 50 }

/-- Draft player `x`, a tank. -/
def dpX : DraftPlayer := { id := "x", name := "X", roles := [.TANK], classes := emptyClasses }

/-- Draft player `y`, a healer. -/
def dpY : DraftPlayer := { id := "y", name := "Y", roles := [.HEAL], classes := emptyClasses }

/-- Draft player `w`, DPS only. -/
def dpW : DraftPlayer := { id := "w", name := "W", roles := [.DPS], classes := emptyClasses }

/-- A one-group draft with a DPS-only bench player, for the swap examples:
its tank is `x`, heal `y`, bench `w`. -/
def exDraft : Draft :=
  { createdAt := 0,
    groups := [{ tank := some dpX, heal := some dpY,
                 dps1 := none, dps2 := none, dps3 := none }],
    bench := [dpW] }

/-- A session holding `exDraft` as its current draft. -/
def exSwapSession : Session :=
  { id := "sw", title := "", description := "", lockAt := none, signups := [],
    createdAt := 0, lastDraft := some exDraft }

/-- Occupancy uniqueness: the Draft invariant that no participant id occupies
two locations. -/
def UniqueOcc (d : Draft) : Prop :=
  ∀ (l₁ l₂ : Loc) (p₁ p₂ : DraftPlayer),
    getAt d l₁ = some p₁ → getAt d l₂ = some p₂ → p₁.id = p₂.id → l₁ = l₂

/-- Bench reference for participant `x` with no class snapshot. -/
def dpHX : DraftPlayer := { id := "x", name := "X", roles := [.DPS], classes := emptyClasses }

/-- Bench reference for participant `y` with no class snapshot. -/
def dpHY : DraftPlayer := { id := "y", name := "Y", roles := [.DPS], classes := emptyClasses }

/-- A draft with two bench players and no groups. -/
def exHydDraft : Draft := { createdAt := 0, groups := [], bench := [dpHX, dpHY] }

/-- The class object the live signups hold for `x`. -/
def clsHX : Classes := { tank := none, heal := none, dps := some "MAGE" }

/-- Live signup info for `x`, with a chosen DPS class. -/
def infoHX : SignupInfo := { roles := [.DPS], displayName := "X", classes := some clsHX }

/-- Live signup info for `y`, with no classes object. -/
def infoHY : SignupInfo := { roles := [.DPS], displayName := "Y", classes := none }

/-- A session whose live signups carry a class choice for `x` that the draft
snapshot does not have. -/
def exHydS : Session :=
  { id := "hs", title := "", description := "", lockAt := none,
    signups := [("x", infoHX), ("y", infoHY)],
    createdAt := 0, lastDraft := some exHydDraft }

/-! ## Permutation facts about the shuffle -/

/-- Re-consing a list element onto a `set` at its own index is a permutation
of consing the written value. -/
theorem cons_set_perm {α : Type _} :
    ∀ (t : List α) (m : Nat) (a b : α), t[m]? = some b →
      (b :: t.set m a).Perm (a :: t)
  | [], m, _, _, h => by simp at h
  | c :: t, 0, a, b, h => by
    have hc : c = b := by simpa using h
    subst hc
    exact List.Perm.swap a c t
  | c :: t, m + 1, a, b, h => by
    have h' : t[m]? = some b := by simpa using h
    have ih := cons_set_perm t m a b h'
    have s₁ : (b :: c :: t.set m a).Perm (c :: b :: t.set m a) := List.Perm.swap c b _
    have s₂ : (c :: b :: t.set m a).Perm (c :: a :: t) := ih.cons c
    have s₃ : (c :: a :: t).Perm (a :: c :: t) := List.Perm.swap a c t
    exact (s₁.trans s₂).trans s₃

/-- Exchanging two (present) positions permutes the list. -/
theorem set_set_perm {α : Type _} :
    ∀ (l : List α) (i j : Nat) (a b : α), l[i]? = some a → l[j]? = some b →
      ((l.set i b).set j a).Perm l
  | [], i, _, _, _, h, _ => by simp at h
  | c :: t, 0, 0, a, b, h₁, h₂ => by
    have ha : c = a := by simpa using h₁
    have hb : c = b := by simpa using h₂
    subst ha; subst hb
    exact List.Perm.refl _
  | c :: t, 0, m + 1, a, b, h₁, h₂ => by
    have ha : c = a := by simpa using h₁
    have h₂' : t[m]? = some b := by simpa using h₂
    subst ha
    exact cons_set_perm t m c b h₂'
  | c :: t, k + 1, 0, a, b, h₁, h₂ => by
    have hb : c = b := by simpa using h₂
    have h₁' : t[k]? = some a := by simpa using h₁
    subst hb
    exact cons_set_perm t k c a h₁'
  | c :: t, k + 1, m + 1, a, b, h₁, h₂ => by
    have h₁' : t[k]? = some a := by simpa using h₁
    have h₂' : t[m]? = some b := by simpa using h₂
    exact (set_set_perm t k m a b h₁' h₂').cons c

/-- `listSwap` permutes the list. -/
theorem listSwap_perm {α : Type _} (l : List α) (i j : Nat) :
    (listSwap l i j).Perm l := by
  unfold listSwap
  cases h₁ : l[i]? with
  | none => cases l[j]? <;> simp
  | some a =>
    cases h₂ : l[j]? with
    | none => simp
    | some b => exact set_set_perm l i j a b h₁ h₂

/-- The Fisher–Yates loop permutes the list. -/
theorem fyGo_perm {α : Type _} :
    ∀ (i : Nat) (l : List α) (rng : List Nat), (fyGo l i rng).1.Perm l
  | 0, _, _ => List.Perm.refl _
  | i + 1, l, rng => by
    unfold fyGo
    exact (fyGo_perm i _ _).trans (listSwap_perm l (i + 1) _)

/-- `shuffle` permutes the list. -/
theorem shuffle_perm {α : Type _} (l : List α) (rng : List Nat) :
    (shuffle l rng).1.Perm l :=
  fyGo_perm _ l rng

/-! ## Specifications of the solver's building blocks -/

/-- A successful `pick` returns an unused, role-eligible pool member. -/
theorem pick_some {pool : List Player} {used : List String} {role : Role}
    {rng : List Nat} {p : Player} {rng' : List Nat}
    (h : pick pool used role rng = (some p, rng')) :
    p ∈ pool ∧ role ∈ p.roles ∧ p.id ∉ used := by
  unfold pick at h
  split at h
  · simp at h
  · have h1 : (pickCands pool used role)[(randBelow
        (pickCands pool used role).length rng).1]? = some p :=
      (Prod.ext_iff.mp h).1
    have hp : p ∈ pickCands pool used role := List.getElem?_mem h1
    have hf := List.mem_filter.mp hp
    exact ⟨hf.1, (of_decide_eq_true hf.2).1, (of_decide_eq_true hf.2).2⟩

theorem assignTH_some (pool : List Player) :
    ∀ (n : Nat) (used : List String) (rng : List Nat) (th : List (Player × Player))
      (used' : List String) (rng' : List Nat),
      assignTH pool n used rng = (some th, used', rng') → used.Nodup →
      th.length = n ∧
      (∀ pr ∈ th, pr.1 ∈ pool ∧ Role.TANK ∈ pr.1.roles ∧
        pr.2 ∈ pool ∧ Role.HEAL ∈ pr.2.roles) ∧
      used'.Perm (thIds th ++ used) ∧ used'.Nodup := by
  intro n
  induction n with
  | zero =>
    intro used rng th used' rng' h hnd
    simp only [assignTH, Prod.mk.injEq, Option.some.injEq] at h
    obtain ⟨h₁, h₂, -⟩ := h
    subst h₁
    subst h₂
    simpa [thIds] using hnd
  | succ n ih =>
    intro used rng th used' rng' h hnd
    rw [assignTH] at h
    split at h
    · exact absurd h (by simp)
    next t rngT hT =>
      split at h
      · exact absurd h (by simp)
      next hl rngH hH =>
        split at h
        next rest usedF rngF hR =>
          simp only [Prod.mk.injEq, Option.some.injEq] at h
          obtain ⟨h₁, h₂, h₃⟩ := h
          subst h₁; subst h₂; subst h₃
          obtain ⟨ht₁, ht₂, ht₃⟩ := pick_some hT
          obtain ⟨hh₁, hh₂, hh₃⟩ := pick_some hH
          have hnd₂ : (hl.id :: t.id :: used).Nodup :=
            List.nodup_cons.mpr ⟨hh₃, List.nodup_cons.mpr ⟨ht₃, hnd⟩⟩
          obtain ⟨hlen, hmem, hperm, hndF⟩ :=
            ih (hl.id :: t.id :: used) rngH rest usedF rngF hR hnd₂
          refine ⟨by simp [hlen], ?_, ?_, hndF⟩
          · intro pr hpr
            rcases List.mem_cons.mp hpr with hpr | hpr
            · subst hpr; exact ⟨ht₁, ht₂, hh₁, hh₂⟩
            · exact hmem pr hpr
          · have step : (thIds rest ++ (hl.id :: t.id :: used)).Perm
                (t.id :: hl.id :: (thIds rest ++ used)) := by
              have p1 : (thIds rest ++ (hl.id :: t.id :: used)).Perm
                  (hl.id :: (thIds rest ++ (t.id :: used))) := List.perm_middle
              have p2 : (thIds rest ++ (t.id :: used)).Perm
                  (t.id :: (thIds rest ++ used)) := List.perm_middle
              have p3 := (p2.cons hl.id)
              have p4 : (hl.id :: t.id :: (thIds rest ++ used)).Perm
                  (t.id :: hl.id :: (thIds rest ++ used)) := List.Perm.swap _ _ _
              exact (p1.trans p3).trans p4
            have hfin : usedF.Perm (t.id :: hl.id :: (thIds rest ++ used)) :=
              hperm.trans step
            simpa [thIds] using hfin
        next usedF rngF hR => exact absurd h (by simp)

/-- A successful candidate loop came from a successful descent on one of the
shortlisted candidates. -/
theorem tryCands_some {R : Type _} (rec : Player → List Nat → Option R × List Nat) :
    ∀ (cs : List Player) (rng : List Nat) (res : R) (rng' : List Nat),
      tryCands rec cs rng = (some res, rng') →
      ∃ p ∈ cs, ∃ rng₀, rec p rng₀ = (some res, rng')
  | [], rng, res, rng', h => by simp [tryCands] at h
  | p :: rest, rng, res, rng', h => by
    rw [tryCands] at h
    split at h
    next r rng₁ hr =>
      simp only [Prod.mk.injEq, Option.some.injEq] at h
      obtain ⟨h₁, h₂⟩ := h
      subst h₁; subst h₂
      exact ⟨p, List.mem_cons_self p rest, rng, hr⟩
    next rng₁ hr =>
      obtain ⟨q, hq, rng₀, hrec⟩ := tryCands_some rec rest rng₁ res rng' h
      exact ⟨q, List.mem_cons_of_mem p hq, rng₀, hrec⟩

/-- A shortlisted candidate is an unused member of the candidate pool. -/
theorem mem_shortlist {cands : List Player} {used : List String} {p : Player}
    {rng : List Nat} (hp : p ∈ (shuffle (dpsShortlist cands used) rng).1) :
    p ∈ cands ∧ p.id ∉ used := by
  have h₁ : p ∈ dpsShortlist cands used := (shuffle_perm _ rng).mem_iff.mp hp
  have h₂ : p ∈ (cands.filter (fun q => decide (q.id ∉ used))).insertionSort
      (fun a b => a.roles.length ≤ b.roles.length) := List.take_subset 10 _ h₁
  have h₃ : p ∈ cands.filter (fun q => decide (q.id ∉ used)) :=
    (List.perm_insertionSort _ _).mem_iff.mp h₂
  have hf := List.mem_filter.mp h₃
  exact ⟨hf.1, of_decide_eq_true hf.2⟩

/-- Specification of a successful DPS fill: the groups receive exactly a set
of fresh DPS candidates, three per group, one dps list per group, and `used`
is extended by exactly their ids, staying duplicate-free. -/
theorem fillDpsGo_some (cands : List Player) (total : Nat) :
    ∀ (n gi si : Nat) (used : List String) (done : List (List Player))
      (cur : List Player) (rng : List Nat) (res : List (List Player))
      (used' : List String) (rng' : List Nat),
      fillDpsGo cands total n gi si used done cur rng = (some (res, used'), rng') →
      used.Nodup → (gi < total ∨ cur = []) → gi ≤ total → done.length = gi →
      (∀ l ∈ done, l.length = 3) → cur.length = si → si ≤ 3 →
      ∃ added : List Player,
        (∀ p ∈ added, p ∈ cands ∧ p.id ∉ used) ∧
        used'.Perm (added.map (·.id) ++ used) ∧ used'.Nodup ∧
        res.length = total ∧ (∀ l ∈ res, l.length = 3) ∧
        res.flatten = done.flatten ++ cur ++ added := by
  intro n
  induction n with
  | zero =>
    intro gi si used done cur rng res used' rng' h hnd hcur hgle hdl hd3 hcl hsi
    rw [fillDpsGo] at h
    split at h
    next hge =>
      simp only [Prod.mk.injEq, Option.some.injEq] at h
      obtain ⟨⟨h₁, h₂⟩, -⟩ := h
      subst h₁; subst h₂
      have hcur0 : cur = [] := hcur.resolve_left (by omega)
      subst hcur0
      exact ⟨[], by simp, by simp, hnd, by omega, hd3, by simp⟩
    · simp at h
  | succ n ih =>
    intro gi si used done cur rng res used' rng' h hnd hcur hgle hdl hd3 hcl hsi
    rw [fillDpsGo] at h
    split at h
    next hge =>
      simp only [Prod.mk.injEq, Option.some.injEq] at h
      obtain ⟨⟨h₁, h₂⟩, -⟩ := h
      subst h₁; subst h₂
      have hcur0 : cur = [] := hcur.resolve_left (by omega)
      subst hcur0
      exact ⟨[], by simp, by simp, hnd, by omega, hd3, by simp⟩
    next hge =>
      split at h
      next h3 =>
        -- slot row finished: recurse into the next group
        have hcl3 : cur.length = 3 := by omega
        have hd3' : ∀ l ∈ done ++ [cur], l.length = 3 := by
          intro l hl
          rcases List.mem_append.mp hl with hl | hl
          · exact hd3 l hl
          · simp only [List.mem_singleton] at hl
            subst hl; exact hcl3
        obtain ⟨added, hin, hperm, hnd', hrl, hr3, hfl⟩ :=
          ih (gi + 1) 0 used (done ++ [cur]) [] rng res used' rng' h hnd
            (Or.inr rfl) (by omega) (by simp [hdl]) hd3' rfl (by omega)
        refine ⟨added, hin, hperm, hnd', hrl, hr3, ?_⟩
        simpa using hfl
      next h3 =>
        -- try the shortlisted candidates
        obtain ⟨p, hp, rng₀, hrec⟩ := tryCands_some _ _ _ _ _ h
        obtain ⟨hpc, hpu⟩ := mem_shortlist hp
        obtain ⟨added₂, hin₂, hperm₂, hnd₂', hrl₂, hr3₂, hfl₂⟩ :=
          ih gi (si + 1) (p.id :: used) done (cur ++ [p]) rng₀ res used' rng' hrec
            (List.nodup_cons.mpr ⟨hpu, hnd⟩) (Or.inl (by omega)) hgle hdl hd3
            (by simp [hcl]) (by omega)
        refine ⟨p :: added₂, ?_, ?_, hnd₂', hrl₂, hr3₂, ?_⟩
        · intro q hq
          rcases List.mem_cons.mp hq with hq | hq
          · subst hq; exact ⟨hpc, hpu⟩
          · obtain ⟨hq₁, hq₂⟩ := hin₂ q hq
            exact ⟨hq₁, fun hmem => hq₂ (List.mem_cons_of_mem _ hmem)⟩
        · have step : (added₂.map (·.id) ++ (p.id :: used)).Perm
              (p.id :: (added₂.map (·.id) ++ used)) := List.perm_middle
          simpa using hperm₂.trans step
        · simp only [hfl₂, List.append_assoc, List.cons_append, List.nil_append,
            List.singleton_append]

/-- Interchange lemma: flattening the zipped groups' slot ids is a
permutation of the tank/heal ids followed by the dps ids. -/
theorem zip_slotIds_perm :
    ∀ (th : List (Player × Player)) (res : List (List Player)), th.length = res.length →
      (((th.zip res).map (fun pr =>
          SolverGroup.mk (some pr.1.1) (some pr.1.2) pr.2)).flatMap
        slotIdsOfGroup).Perm (thIds th ++ res.flatten.map (·.id))
  | [], [], _ => by simp [thIds]
  | [], _ :: _, h => by simp at h
  | _ :: _, [], h => by simp at h
  | pr :: th, ds :: res, hlen => by
    have hl : th.length = res.length := by simpa using hlen
    have ih := zip_slotIds_perm th res hl
    simp only [List.zip_cons_cons, List.map_cons, List.flatMap_cons, List.flatten_cons,
      List.map_append, thIds] at ih ⊢
    have hslot : slotIdsOfGroup (SolverGroup.mk (some pr.1) (some pr.2) ds) =
        pr.1.id :: pr.2.id :: ds.map (·.id) := by
      simp [slotIdsOfGroup]
    rw [hslot]
    have h₁ := ih.append_left (ds.map (·.id))
    rw [← List.append_assoc] at h₁
    have h₃ := (@List.perm_append_comm _ (ds.map (·.id))
      (th.flatMap (fun p2 => [p2.1.id, p2.2.id]))).append_right
        (res.flatten.map (·.id))
    have step := h₁.trans h₃
    rw [List.append_assoc] at step
    have final := (step.cons pr.2.id).cons pr.1.id
    simpa [List.append_assoc] using final

/-- Shape and role-correctness of a successful attempt: `target` groups, every
tank slot TANK-eligible, every heal slot HEAL-eligible, all dps slots
DPS-eligible and exactly three per group, and all slots occupied. -/
theorem attemptOnce_shape {players : List Player} {target : Nat} {rng : List Nat}
    {att : Attempt} {rng' : List Nat}
    (h : attemptOnce players target rng = (some att, rng')) :
    att.groups.length = target ∧
    ∀ g ∈ att.groups,
      (∀ t, g.tank = some t → Role.TANK ∈ t.roles) ∧
      (∀ hl, g.heal = some hl → Role.HEAL ∈ hl.roles) ∧
      (∀ p ∈ g.dps, Role.DPS ∈ p.roles) ∧
      g.dps.length = 3 ∧ g.tank.isSome ∧ g.heal.isSome := by
  rw [attemptOnce] at h
  split at h
  · simp at h
  next th used₁ rng₂ hTH =>
    split at h
    · simp at h
    next res used₂ rng₃ hFD =>
      simp only [Prod.mk.injEq, Option.some.injEq] at h
      obtain ⟨h₁, -⟩ := h
      subst h₁
      obtain ⟨hthlen, hthmem, -, hnd₁⟩ :=
        assignTH_some _ target [] _ th used₁ rng₂ hTH (List.nodup_nil)
      obtain ⟨added, haddmem, -, -, hreslen, hres3, hflat⟩ :=
        fillDpsGo_some _ target (4 * target + 3) 0 0 used₁ [] [] rng₂ res used₂ rng₃
          hFD hnd₁ (Or.inr rfl) (Nat.zero_le _) rfl (by simp) rfl (by omega)
      constructor
      · simp [List.length_zip, hthlen, hreslen]
      · intro g hg
        obtain ⟨pr, hpr, hfg⟩ := List.mem_map.mp hg
        obtain ⟨hpr1, hpr2⟩ := List.of_mem_zip hpr
        subst hfg
        obtain ⟨-, ht, -, hh⟩ := hthmem pr.1 hpr1
        refine ⟨?_, ?_, ?_, hres3 pr.2 hpr2, by simp, by simp⟩
        · intro t htk
          simp only [Option.some.injEq] at htk
          subst htk; exact ht
        · intro hl hhl
          simp only [Option.some.injEq] at hhl
          subst hhl; exact hh
        · intro p hp
          have hpadded : p ∈ added := by
            have : p ∈ res.flatten := List.mem_flatten.mpr ⟨pr.2, hpr2, hp⟩
            simpa [hflat] using this
          have := (haddmem p hpadded).1
          have hf := List.mem_filter.mp this
          exact of_decide_eq_true hf.2

/-- Partition property of a successful attempt: the ids on the groups' slots
and the bench together are a permutation of all players' ids (given that the
input ids are unique, as JS object keys are). -/
theorem attemptOnce_partition {players : List Player} {target : Nat} {rng : List Nat}
    {att : Attempt} {rng' : List Nat}
    (h : attemptOnce players target rng = (some att, rng'))
    (hnd : (players.map (·.id)).Nodup) :
    (attemptIds att).Perm (players.map (·.id)) := by
  rw [attemptOnce] at h
  split at h
  · simp at h
  next th used₁ rng₂ hTH =>
    split at h
    · simp at h
    next res used₂ rng₃ hFD =>
      simp only [Prod.mk.injEq, Option.some.injEq] at h
      obtain ⟨h₁, -⟩ := h
      subst h₁
      have hpoolperm : ((shuffle players rng).1.map (·.id)).Perm (players.map (·.id)) :=
        (shuffle_perm players rng).map _
      have hndp : ((shuffle players rng).1.map (·.id)).Nodup :=
        (hpoolperm.nodup_iff).mpr hnd
      obtain ⟨hthlen, hthmem, hperm₁, hnd₁⟩ :=
        assignTH_some _ target [] _ th used₁ rng₂ hTH (List.nodup_nil)
      obtain ⟨added, haddmem, hperm₂, hnd₂, hreslen, -, hflat⟩ :=
        fillDpsGo_some _ target (4 * target + 3) 0 0 used₁ [] [] rng₂ res used₂ rng₃
          hFD hnd₁ (Or.inr rfl) (Nat.zero_le _) rfl (by simp) rfl (by omega)
      have hplaced : (((th.zip res).map (fun pr =>
          SolverGroup.mk (some pr.1.1) (some pr.1.2) pr.2)).flatMap
            slotIdsOfGroup).Perm (thIds th ++ added.map (·.id)) := by
        have hz := zip_slotIds_perm th res (by omega)
        have heq : (res.flatten.map (·.id)) = added.map (·.id) := by
          simp [hflat]
        rw [heq] at hz
        exact hz
      have hused₂ : used₂.Perm (added.map (·.id) ++ thIds th) := by
        refine hperm₂.trans (List.Perm.append_left _ ?_)
        simpa using hperm₁
      have hplaced_used : (((th.zip res).map (fun pr =>
          SolverGroup.mk (some pr.1.1) (some pr.1.2) pr.2)).flatMap
            slotIdsOfGroup).Perm used₂ :=
        (hplaced.trans List.perm_append_comm).trans hused₂.symm
      have hplaced_pool : ∀ x ∈ thIds th ++ added.map (·.id),
          x ∈ (shuffle players rng).1.map (·.id) := by
        intro x hx
        rcases List.mem_append.mp hx with hx | hx
        · rw [thIds, List.mem_flatMap] at hx
          obtain ⟨pr, hpr, hxmem⟩ := hx
          rcases List.mem_cons.mp hxmem with hxid | hxmem2
          · obtain ⟨h1, -, -, -⟩ := hthmem pr hpr
            exact List.mem_map.mpr ⟨pr.1, h1, hxid.symm⟩
          · have hxid : x = pr.2.id := by simpa using hxmem2
            obtain ⟨-, -, h2, -⟩ := hthmem pr hpr
            exact List.mem_map.mpr ⟨pr.2, h2, hxid.symm⟩
        · obtain ⟨p, hp, hxid⟩ := List.mem_map.mp hx
          have hpc := (haddmem p hp).1
          have hf := List.mem_filter.mp hpc
          exact List.mem_map.mpr ⟨p, hf.1, hxid⟩
      have hpart := List.filter_append_perm
        (fun q => decide (q.id ∈ used₂)) (shuffle players rng).1
      have hbench_eq : ((shuffle players rng).1.filter (fun q => decide (q.id ∉ used₂))) =
          ((shuffle players rng).1.filter (fun q => !decide (q.id ∈ used₂))) := by
        simp only [decide_not]
      have hin_nodup : (((shuffle players rng).1.filter
          (fun q => decide (q.id ∈ used₂))).map (·.id)).Nodup :=
        ((List.filter_sublist _).map _).nodup hndp
      have hplaced_nodup : ((((th.zip res).map (fun pr =>
          SolverGroup.mk (some pr.1.1) (some pr.1.2) pr.2)).flatMap
            slotIdsOfGroup)).Nodup := hplaced_used.nodup_iff.mpr hnd₂
      have hin_placed : ((((shuffle players rng).1.filter
          (fun q => decide (q.id ∈ used₂))).map (·.id))).Perm
          (((th.zip res).map (fun pr =>
            SolverGroup.mk (some pr.1.1) (some pr.1.2) pr.2)).flatMap
              slotIdsOfGroup) := by
        rw [List.perm_ext_iff_of_nodup hin_nodup hplaced_nodup]
        intro x
        constructor
        · intro hx
          obtain ⟨q, hq, hxid⟩ := List.mem_map.mp hx
          have hf := List.mem_filter.mp hq
          have hxu : x ∈ used₂ := hxid ▸ of_decide_eq_true hf.2
          exact hplaced_used.mem_iff.mpr hxu
        · intro hx
          have hxu : x ∈ used₂ := hplaced_used.mem_iff.mp hx
          have hxta : x ∈ thIds th ++ added.map (·.id) := hplaced.mem_iff.mp hx
          have hxpool := hplaced_pool x hxta
          obtain ⟨q, hq, hxid⟩ := List.mem_map.mp hxpool
          refine List.mem_map.mpr ⟨q, List.mem_filter.mpr ⟨hq, ?_⟩, hxid⟩
          exact decide_eq_true (hxid ▸ hxu)
      have step₂ : (((((shuffle players rng).1.filter
          (fun q => decide (q.id ∈ used₂))).map (·.id))) ++
          ((((shuffle players rng).1.filter (fun q => !decide (q.id ∈ used₂))).map (·.id)))).Perm
          ((shuffle players rng).1.map (·.id)) := by
        have hm := hpart.map (·.id)
        simpa [List.map_append] using hm
      simp only [attemptIds]
      rw [hbench_eq]
      exact ((hin_placed.symm.append_right _).trans step₂).trans hpoolperm

/-- Any property of successful attempts carries over to the attempt the loop
finally keeps. -/
theorem solveLoop_some_prop (players : List Player) (target : Nat) (P : Attempt → Prop)
    (hA : ∀ rng att rng', attemptOnce players target rng = (some att, rng') → P att) :
    ∀ (k : Nat) (best : Option Attempt) (rng : List Nat) (att : Attempt),
      (∀ b, best = some b → P b) →
      (solveLoop players target k best rng).1 = some att → P att
  | 0, best, rng, att, hbest, h => hbest att (by simpa [solveLoop] using h)
  | k + 1, best, rng, att, hbest, h => by
    rw [solveLoop] at h
    split at h
    next rng₁ hA1 =>
      exact solveLoop_some_prop players target P hA k best rng₁ att hbest h
    next att₁ rng₁ hA1 =>
      have hP₁ : P att₁ := hA rng att₁ rng₁ hA1
      split at h
      · -- best = none
        split at h
        · simp only [Prod.mk.injEq, Option.some.injEq] at h
          exact h ▸ hP₁
        · exact solveLoop_some_prop players target P hA k (some att₁) rng₁ att
            (fun b hb => by cases hb; exact hP₁) h
      next b =>
        split at h
        · split at h
          · simp only [Prod.mk.injEq, Option.some.injEq] at h
            exact h ▸ hP₁
          · exact solveLoop_some_prop players target P hA k (some att₁) rng₁ att
              (fun b' hb => by cases hb; exact hP₁) h
        · exact solveLoop_some_prop players target P hA k (some b) rng₁ att
            (fun b' hb => by cases hb; exact hbest b rfl) h

/-- Once a best attempt exists, the loop always returns one. -/
theorem solveLoop_isSome (players : List Player) (target : Nat) :
    ∀ (k : Nat) (b : Attempt) (rng : List Nat),
      ((solveLoop players target k (some b) rng).1).isSome
  | 0, b, rng => by simp [solveLoop]
  | k + 1, b, rng => by
    rw [solveLoop]
    rcases hA1 : attemptOnce players target rng with ⟨oatt, rng₁⟩
    cases oatt with
    | none => exact solveLoop_isSome players target k b rng₁
    | some att₁ =>
      dsimp only
      split
      · split
        · simp
        · exact solveLoop_isSome players target k att₁ rng₁
      · exact solveLoop_isSome players target k b rng₁

/-- Starting with no best attempt, the loop comes back empty iff no attempt
in the budget completed. -/
theorem solveLoop_none_iff (players : List Player) (target : Nat) :
    ∀ (k : Nat) (rng : List Nat),
      ((solveLoop players target k none rng).1 = none) ↔
        anySuccess players target k rng = false
  | 0, rng => by simp [solveLoop, anySuccess]
  | k + 1, rng => by
    rw [solveLoop, anySuccess]
    split
    next rng₁ hA1 =>
      rw [hA1]
      exact solveLoop_none_iff players target k rng₁
    next att₁ rng₁ hA1 =>
      rw [hA1]
      simp only
      split
      · simp
      · have := solveLoop_isSome players target k att₁ rng₁
        constructor
        · intro hh
          rw [hh] at this
          simp at this
        · intro hh
          simp at hh

/-- The solver players carry exactly the signup keys as ids. -/
theorem playersOf_ids (signups : Signups) :
    (playersOf signups).map (·.id) = signups.map Prod.fst := by
  simp [playersOf, mkPlayer, List.map_map]

/-- The effective target never exceeds the feasibility ceiling. -/
theorem targetGroupsOf_toNat_le (ps : List Player) (desired : Option Int) :
    (targetGroupsOf ps desired).toNat ≤ maxByCounts ps := by
  cases desired with
  | none => simp [targetGroupsOf]
  | some d =>
    by_cases h : d = 0
    · simp [targetGroupsOf, h]
    · simp only [targetGroupsOf, h, if_false]
      have h1 : min d ((maxByCounts ps : Int)) ≤ (maxByCounts ps : Int) := min_le_right _ _
      omega

/-- C2: For every signup map, desired group count and attempt budget, the
number of groups returned by `rollGroups` is at most
`min(#TANK-eligible, #HEAL-eligible, floor(#DPS-eligible / 3),
floor(total / 5))`. -/
theorem rollGroups_group_count_le (signups : Signups) (desired : Option Int)
    (attempts : Nat) (rng : List Nat) :
    (rollGroups signups desired attempts rng).groups.length ≤
      min (min (countRole (playersOf signups) .TANK)
          (countRole (playersOf signups) .HEAL))
        (min (countRole (playersOf signups) .DPS / 3)
          ((playersOf signups).length / 5)) := by
  unfold rollGroups
  split
  · simp
  next htg =>
    rcases hbest : (solveLoop (playersOf signups)
        (targetGroupsOf (playersOf signups) desired).toNat attempts none rng).1
      with _ | best
    · simp
    · have hP := solveLoop_some_prop (playersOf signups)
        (targetGroupsOf (playersOf signups) desired).toNat
        (fun att => att.groups.length =
          (targetGroupsOf (playersOf signups) desired).toNat)
        (fun rng₀ att rng₀' hat => (attemptOnce_shape hat).1)
        attempts none rng best (by simp) hbest
      simp only
      rw [hP]
      have hle := targetGroupsOf_toNat_le (playersOf signups) desired
      simpa [maxByCounts] using hle

/-- C1: in every successful solver run the ids across all group slots plus
the bench are pairwise distinct and are exactly the signup keys. -/
theorem rollGroups_no_duplication (signups : Signups) (desired : Option Int)
    (attempts : Nat) (rng : List Nat)
    (hkeys : (signups.map Prod.fst).Nodup)
    (hsucc : (rollGroups signups desired attempts rng).reason = none) :
    (resultIds (rollGroups signups desired attempts rng)).Nodup ∧
    ∀ x, x ∈ resultIds (rollGroups signups desired attempts rng) ↔
      x ∈ signups.map Prod.fst := by
  have hnd : ((playersOf signups).map (·.id)).Nodup := by
    rw [playersOf_ids]; exact hkeys
  unfold rollGroups at hsucc ⊢
  split at hsucc
  · simp at hsucc
  next htg =>
    rw [if_neg htg]
    rcases hbest : (solveLoop (playersOf signups)
        (targetGroupsOf (playersOf signups) desired).toNat attempts none rng).1
      with _ | best
    · rw [hbest] at hsucc
      simp at hsucc
    · dsimp only
      have hP := solveLoop_some_prop (playersOf signups)
        (targetGroupsOf (playersOf signups) desired).toNat
        (fun att => (attemptIds att).Perm ((playersOf signups).map (·.id)))
        (fun rng₀ att rng₀' hat => attemptOnce_partition hat hnd)
        attempts none rng best (by simp) hbest
      have hres : resultIds { groups := best.groups, bench := best.bench, reason := none } =
          attemptIds best := rfl
      rw [hres]
      constructor
      · exact hP.nodup_iff.mpr hnd
      · intro x
        rw [hP.mem_iff, playersOf_ids]

/-- C8: in every successful solver result, every tank occupant is
TANK-eligible, every heal occupant HEAL-eligible, and every dps occupant
DPS-eligible. -/
theorem rollGroups_role_eligibility (signups : Signups) (desired : Option Int)
    (attempts : Nat) (rng : List Nat)
    (hsucc : (rollGroups signups desired attempts rng).reason = none) :
    ∀ g ∈ (rollGroups signups desired attempts rng).groups,
      (∀ t, g.tank = some t → Role.TANK ∈ t.roles) ∧
      (∀ hl, g.heal = some hl → Role.HEAL ∈ hl.roles) ∧
      (∀ p ∈ g.dps, Role.DPS ∈ p.roles) := by
  unfold rollGroups at hsucc ⊢
  split at hsucc
  · simp at hsucc
  next htg =>
    rw [if_neg htg]
    rcases hbest : (solveLoop (playersOf signups)
        (targetGroupsOf (playersOf signups) desired).toNat attempts none rng).1
      with _ | best
    · rw [hbest] at hsucc
      simp at hsucc
    · dsimp only
      have hP := solveLoop_some_prop (playersOf signups)
        (targetGroupsOf (playersOf signups) desired).toNat
        (fun att => ∀ g ∈ att.groups,
          (∀ t, g.tank = some t → Role.TANK ∈ t.roles) ∧
          (∀ hl, g.heal = some hl → Role.HEAL ∈ hl.roles) ∧
          (∀ p ∈ g.dps, Role.DPS ∈ p.roles))
        (fun rng₀ att rng₀' hat => by
          intro g hg
          obtain ⟨ht, hh, hd, -, -, -⟩ := (attemptOnce_shape hat).2 g hg
          exact ⟨ht, hh, hd⟩)
        attempts none rng best (by simp) hbest
      intro g hg
      exact hP g hg

/-- C3 (amended): whenever the computed effective target is non-positive —
`min(desired, maxGroups)` for a *truthy* (nonzero) desired count, else
`maxGroups` — `rollGroups` returns the `NoSolution` result carrying the four
diagnostic counts, with no groups and the entire roster benched. -/
theorem rollGroups_infeasible (signups : Signups) (desired : Option Int)
    (attempts : Nat) (rng : List Nat)
    (h : targetGroupsOf (playersOf signups) desired ≤ 0) :
    rollGroups signups desired attempts rng =
      { groups := [], bench := playersOf signups,
        reason := some (noGroupsMsg (countRole (playersOf signups) .TANK)
          (countRole (playersOf signups) .HEAL) (countRole (playersOf signups) .DPS)
          (playersOf signups).length) } := by
  unfold rollGroups
  rw [if_pos h]

/-- Witness for the amended C3, on the spec's zero-heals scenario: the
diagnostic indeed reports `heals=0`. -/
theorem rollGroups_infeasible_witness :
    targetGroupsOf (playersOf exNoHeal) none ≤ 0 ∧
    rollGroups exNoHeal none 200 [] =
      { groups := [], bench := playersOf exNoHeal,
        reason := some (noGroupsMsg (countRole (playersOf exNoHeal) .TANK)
          (countRole (playersOf exNoHeal) .HEAL) (countRole (playersOf exNoHeal) .DPS)
          (playersOf exNoHeal).length) } :=
  ⟨by decide, rollGroups_infeasible exNoHeal none 200 [] (by decide)⟩

/-- Counterexample to C3 as stated: with `desired = 0` the claim's effective
target `min(0, maxGroups)` is non-positive, so the claim demands a
`NoSolution` result — but the code treats the falsy `0` as "unset" and
returns a successful one-group draft with an empty bench. -/
theorem rollGroups_desired_zero_counterexample :
    min (0 : Int) (maxByCounts (playersOf exFullGroup)) ≤ 0 ∧
    (rollGroups exFullGroup (some 0) 1 []).reason = none ∧
    (rollGroups exFullGroup (some 0) 1 []).groups.length = 1 ∧
    (rollGroups exFullGroup (some 0) 1 []).bench = [] := by
  decide

/-- C4 (amended): with a positive effective target and a budget of at least
one, `rollGroups` returns the budget-exhausted `NoSolution` result iff no
attempt in the budget produced a *complete* assignment (tanks, heals and all
dps slots); otherwise it returns the loop's best attempt as a successful
draft.  (The claim's weaker trigger — an attempt merely assigning all tank
and heal slots — is refuted below.) -/
theorem rollGroups_budget_iff (signups : Signups) (desired : Option Int)
    (attempts : Nat) (rng : List Nat)
    (htarget : 0 < targetGroupsOf (playersOf signups) desired)
    (hatt : 1 ≤ attempts) :
    (rollGroups signups desired attempts rng =
        { groups := [], bench := playersOf signups,
          reason := some (budgetMsg attempts) } ↔
      anySuccess (playersOf signups)
        (targetGroupsOf (playersOf signups) desired).toNat attempts rng = false) ∧
    (anySuccess (playersOf signups)
        (targetGroupsOf (playersOf signups) desired).toNat attempts rng = true →
      ∃ best, (solveLoop (playersOf signups)
          (targetGroupsOf (playersOf signups) desired).toNat attempts none rng).1 =
            some best ∧
        rollGroups signups desired attempts rng =
          { groups := best.groups, bench := best.bench, reason := none }) := by
  unfold rollGroups
  rw [if_neg (by omega)]
  rcases hbest : (solveLoop (playersOf signups)
      (targetGroupsOf (playersOf signups) desired).toNat attempts none rng).1
    with _ | best
  · dsimp only
    have hany := (solveLoop_none_iff (playersOf signups)
      (targetGroupsOf (playersOf signups) desired).toNat attempts rng).mp hbest
    constructor
    · exact ⟨fun _ => hany, fun _ => rfl⟩
    · intro htrue
      rw [hany] at htrue
      simp at htrue
  · dsimp only
    constructor
    · constructor
      · intro hh
        simp at hh
      · intro hh
        have := (solveLoop_none_iff (playersOf signups)
          (targetGroupsOf (playersOf signups) desired).toNat attempts rng).mpr hh
        rw [this] at hbest
        simp at hbest
    · intro _
      exact ⟨best, rfl, rfl⟩

/-- Witness for the amended C4 on the feasible five-player roster: one
attempt succeeds and its draft is returned. -/
theorem rollGroups_budget_iff_witness :
    (0 < targetGroupsOf (playersOf exFullGroup) none ∧ 1 ≤ 1) ∧
    ((rollGroups exFullGroup none 1 [] =
        { groups := [], bench := playersOf exFullGroup,
          reason := some (budgetMsg 1) } ↔
      anySuccess (playersOf exFullGroup)
        (targetGroupsOf (playersOf exFullGroup) none).toNat 1 [] = false) ∧
    (anySuccess (playersOf exFullGroup)
        (targetGroupsOf (playersOf exFullGroup) none).toNat 1 [] = true →
      ∃ best, (solveLoop (playersOf exFullGroup)
          (targetGroupsOf (playersOf exFullGroup) none).toNat 1 none []).1 =
            some best ∧
        rollGroups exFullGroup none 1 [] =
          { groups := best.groups, bench := best.bench, reason := none })) :=
  ⟨⟨by decide, le_refl 1⟩,
    rollGroups_budget_iff exFullGroup none 1 [] (by decide) (le_refl 1)⟩

/-- Counterexample to C4 as stated: on `exTHBlocked` (positive target, budget
1) the single attempt assigns both the tank and the heal slot of the one
group — the claim's condition for returning a draft — yet the dps fill can
never complete, and the code returns the budget-exhausted `NoSolution`. -/
theorem rollGroups_budget_despite_fullTH :
    0 < targetGroupsOf (playersOf exTHBlocked) none ∧
    rollGroups exTHBlocked none 1 [] =
      { groups := [], bench := playersOf exTHBlocked,
        reason := some (budgetMsg 1) } ∧
    anyFullTH (playersOf exTHBlocked)
      (targetGroupsOf (playersOf exTHBlocked) none).toNat 1 [] = true := by
  decide

/-- Witness for C1 on the feasible five-player roster. -/
theorem rollGroups_no_duplication_witness :
    ((exFullGroup.map Prod.fst).Nodup ∧
      (rollGroups exFullGroup none 1 []).reason = none) ∧
    ((resultIds (rollGroups exFullGroup none 1 [])).Nodup ∧
      ∀ x, x ∈ resultIds (rollGroups exFullGroup none 1 []) ↔
        x ∈ exFullGroup.map Prod.fst) :=
  ⟨⟨by decide, by decide⟩,
    rollGroups_no_duplication exFullGroup none 1 [] (by decide) (by decide)⟩

/-- Witness for C8 on the feasible five-player roster. -/
theorem rollGroups_role_eligibility_witness :
    (rollGroups exFullGroup none 1 []).reason = none ∧
    ∀ g ∈ (rollGroups exFullGroup none 1 []).groups,
      (∀ t, g.tank = some t → Role.TANK ∈ t.roles) ∧
      (∀ hl, g.heal = some hl → Role.HEAL ∈ hl.roles) ∧
      (∀ p ∈ g.dps, Role.DPS ∈ p.roles) :=
  ⟨by decide, rollGroups_role_eligibility exFullGroup none 1 [] (by decide)⟩

/-- Membership in the JS set view is membership in the stored list. -/
theorem mem_jsSetOfList {α : Type _} [DecidableEq α] :
    ∀ (l : List α) (x : α), x ∈ jsSetOfList l ↔ x ∈ l
  | [], x => by simp [jsSetOfList]
  | a :: t, x => by
    simp only [jsSetOfList, List.mem_cons, List.mem_filter]
    constructor
    · rintro (h | ⟨h, -⟩)
      · exact Or.inl h
      · exact Or.inr ((mem_jsSetOfList t x).mp h)
    · rintro (h | h)
      · exact Or.inl h
      · by_cases hx : x = a
        · exact Or.inl hx
        · exact Or.inr ⟨(mem_jsSetOfList t x).mpr h, by simpa using hx⟩

/-- Membership after one toggle. -/
theorem mem_toggledRoles (stored : List Role) (role r : Role) :
    r ∈ toggledRoles stored role ↔
      (r ∈ stored ∧ ¬(r = role)) ∨ (r = role ∧ role ∉ stored) := by
  unfold toggledRoles
  split
  next hin =>
    have hrs : role ∈ stored := (mem_jsSetOfList _ _).mp hin
    simp only [List.mem_filter, mem_jsSetOfList, decide_eq_true_eq]
    constructor
    · rintro ⟨hm, hne⟩
      exact Or.inl ⟨hm, hne⟩
    · rintro (⟨hm, hne⟩ | ⟨-, habs⟩)
      · exact ⟨hm, hne⟩
      · exact absurd hrs habs
  next hout =>
    have hrs : role ∉ stored := fun hh => hout ((mem_jsSetOfList _ _).mpr hh)
    simp only [List.mem_append, mem_jsSetOfList, List.mem_singleton]
    constructor
    · rintro (hm | hm)
      · by_cases hr : r = role
        · exact Or.inr ⟨hr, hrs⟩
        · exact Or.inl ⟨hm, hr⟩
      · exact Or.inr ⟨hm, hrs⟩
    · rintro (⟨hm, -⟩ | ⟨hm, -⟩)
      · exact Or.inl hm
      · exact Or.inr hm

/-- Toggling a role twice restores the eligible-role set (as a set). -/
theorem mem_toggledRoles_twice (stored : List Role) (role r : Role) :
    r ∈ toggledRoles (toggledRoles stored role) role ↔ r ∈ stored := by
  by_cases hr : r = role
  · subst hr
    simp only [mem_toggledRoles]
    tauto
  · simp only [mem_toggledRoles, hr]
    tauto

/-- Reading the written key back from a keyed in-place map update. -/
theorem alistGet_map_update {α : Type _} :
    ∀ (l : List (String × α)) (k : String) (v : α),
      (l.find? (fun q => decide (q.1 = k))).isSome →
      alistGet (l.map (fun e => if e.1 = k then (k, v) else e)) k = some v
  | [], k, v, hf => by simp at hf
  | e :: t, k, v, hf => by
    by_cases he : e.1 = k
    · simp [alistGet, List.find?_cons, he]
    · have hf' : (t.find? (fun q => decide (q.1 = k))).isSome := by
        rw [List.find?_cons] at hf
        simpa [he] using hf
      have ih := alistGet_map_update t k v hf'
      simpa [alistGet, List.find?_cons, he] using ih

/-- Reading the appended key back when it was absent. -/
theorem alistGet_append_self {α : Type _} :
    ∀ (l : List (String × α)) (k : String) (v : α),
      (l.find? (fun q => decide (q.1 = k))) = none →
      alistGet (l ++ [(k, v)]) k = some v
  | [], k, v, _ => by simp [alistGet]
  | e :: t, k, v, hf => by
    rw [List.find?_cons] at hf
    by_cases he : e.1 = k
    · simp [he] at hf
    · have ih := alistGet_append_self t k v (by simpa [he] using hf)
      simpa [alistGet, List.find?_cons, he] using ih

/-- Reading back an association-list update at the written key. -/
theorem alistGet_alistSet_self {α : Type _} (l : List (String × α)) (k : String) (v : α) :
    alistGet (alistSet l k v) k = some v := by
  unfold alistSet
  split
  next hf => exact alistGet_map_update l k v hf
  next hf =>
    exact alistGet_append_self l k v (Option.not_isSome_iff_eq_none.mp hf)

/-- After a successful toggle, the stored roles are the toggled ones and the
base is what `rolesOf` read before. -/
theorem toggleHandler_roles {s : Session} {now : Nat} {uid dn : String} {role : Role}
    {s' : Session} (h : toggleHandler s now uid dn role = .ok s') :
    rolesOf s' uid = toggledRoles (rolesOf s uid) role := by
  unfold toggleHandler at h
  split at h
  · simp at h
  · simp only [Except.ok.injEq] at h
    subst h
    unfold rolesOf
    rw [alistGet_alistSet_self]
    cases hget : alistGet s.signups uid with
    | none => simp [hget]
    | some i => simp [hget]

/-- C9: toggling the same role twice in succession (both calls succeeding)
leaves the participant's eligible-role set exactly as it was. -/
theorem toggle_twice_roles (s : Session) (now₁ now₂ : Nat) (uid dn₁ dn₂ : String)
    (role : Role) (s₁ s₂ : Session)
    (h₁ : toggleHandler s now₁ uid dn₁ role = .ok s₁)
    (h₂ : toggleHandler s₁ now₂ uid dn₂ role = .ok s₂) :
    ∀ r, r ∈ rolesOf s₂ uid ↔ r ∈ rolesOf s uid := by
  intro r
  rw [toggleHandler_roles h₂, toggleHandler_roles h₁]
  exact mem_toggledRoles_twice (rolesOf s uid) role r

/-- Witness for C9 on a concrete session. -/
theorem toggle_twice_roles_witness :
    (toggleHandler exToggleS 5 "u" "U" Role.HEAL = .ok exToggleS1 ∧
      toggleHandler exToggleS1 6 "u" "V" Role.HEAL = .ok exToggleS2) ∧
    ∀ r, r ∈ rolesOf exToggleS2 "u" ↔ r ∈ rolesOf exToggleS "u" :=
  ⟨⟨by rfl, by rfl⟩,
    toggle_twice_roles exToggleS 5 6 "u" "U" "V" Role.HEAL exToggleS1 exToggleS2
      (by rfl) (by rfl)⟩

/-- Reading back a per-role class write. -/
theorem Classes.get_set_self (c : Classes) (r : Role) (v : Option String) :
    (c.set r v).get r = v := by
  cases r <;> rfl

/-- C10: the class selection menu rejects with `RoleNotEligible` when the
role is not eligible, rejects with `InvalidSubAttribute` when a non-`UNSET`
value is outside `ROLE_CLASSES[role]`, always accepts `UNSET` (clearing the
stored class) for an eligible role, and stores an allowed value verbatim.
(Rejections return only the error: nothing is saved, so the persisted roster
is unchanged.) -/
theorem classSelect_spec (s : Session) (now : Nat) (uid dn : String) (roleKey : Role)
    (value : String) (hlock : isLockedNow s.lockAt now = false) :
    (roleKey ∉ rolesOf s uid →
      classSelectHandler s now uid dn roleKey value = .error .roleNotEligible) ∧
    (roleKey ∈ rolesOf s uid → value ≠ "UNSET" → value ∉ ROLE_CLASSES roleKey →
      classSelectHandler s now uid dn roleKey value = .error .invalidSubAttribute) ∧
    (roleKey ∈ rolesOf s uid → value = "UNSET" →
      ∃ s', classSelectHandler s now uid dn roleKey value = .ok s' ∧
        classOf s' uid roleKey = none) ∧
    (roleKey ∈ rolesOf s uid → value ≠ "UNSET" → value ∈ ROLE_CLASSES roleKey →
      ∃ s', classSelectHandler s now uid dn roleKey value = .ok s' ∧
        classOf s' uid roleKey = some value) := by
  have hroles : ∀ r : Role, r ∈ jsSetOfList ((alistGet s.signups uid).getD
      { roles := [], displayName := dn, classes := some emptyClasses }).roles ↔
      r ∈ rolesOf s uid := by
    intro r
    rw [mem_jsSetOfList]
    unfold rolesOf
    cases alistGet s.signups uid <;> simp
  refine ⟨?_, ?_, ?_, ?_⟩
  · intro hnot
    unfold classSelectHandler
    rw [if_neg (by simp [hlock])]
    dsimp only
    rw [if_pos (fun hmem => hnot ((hroles roleKey).mp hmem))]
  · intro hin hne hnotin
    unfold classSelectHandler
    rw [if_neg (by simp [hlock])]
    dsimp only
    rw [if_neg (fun hno => hno ((hroles roleKey).mpr hin))]
    rw [if_pos ⟨hne, hnotin⟩]
  · intro hin hunset
    unfold classSelectHandler
    rw [if_neg (by simp [hlock])]
    dsimp only
    rw [if_neg (fun hno => hno ((hroles roleKey).mpr hin))]
    rw [if_neg (by simp [hunset])]
    refine ⟨_, rfl, ?_⟩
    unfold classOf
    rw [alistGet_alistSet_self]
    simp [Classes.get_set_self, hunset]
  · intro hin hne hvin
    unfold classSelectHandler
    rw [if_neg (by simp [hlock])]
    dsimp only
    rw [if_neg (fun hno => hno ((hroles roleKey).mpr hin))]
    rw [if_neg (by simp [hne, hvin])]
    refine ⟨_, rfl, ?_⟩
    unfold classOf
    rw [alistGet_alistSet_self]
    simp [Classes.get_set_self, hne]

/-- Witness for C10 on a concrete session: an eligible TANK role accepts
WARRIOR. -/
theorem classSelect_spec_witness :
    (isLockedNow exToggleS.lockAt 5 = false) ∧
    ((Role.TANK ∉ rolesOf exToggleS "u" →
      classSelectHandler exToggleS 5 "u" "U" Role.TANK "WARRIOR" = .error .roleNotEligible) ∧
    (Role.TANK ∈ rolesOf exToggleS "u" → "WARRIOR" ≠ "UNSET" →
        "WARRIOR" ∉ ROLE_CLASSES Role.TANK →
      classSelectHandler exToggleS 5 "u" "U" Role.TANK "WARRIOR" = .error .invalidSubAttribute) ∧
    (Role.TANK ∈ rolesOf exToggleS "u" → "WARRIOR" = "UNSET" →
      ∃ s', classSelectHandler exToggleS 5 "u" "U" Role.TANK "WARRIOR" = .ok s' ∧
        classOf s' "u" Role.TANK = none) ∧
    (Role.TANK ∈ rolesOf exToggleS "u" → "WARRIOR" ≠ "UNSET" →
        "WARRIOR" ∈ ROLE_CLASSES Role.TANK →
      ∃ s', classSelectHandler exToggleS 5 "u" "U" Role.TANK "WARRIOR" = .ok s' ∧
        classOf s' "u" Role.TANK = some "WARRIOR")) :=
  ⟨by decide, classSelect_spec exToggleS 5 "u" "U" Role.TANK "WARRIOR" (by decide)⟩

/-- C5 (amended): past a truthy (non-null, nonzero) lock deadline every
roster mutator fails with the locked error (returning no state: nothing is
persisted), while the swap handler and the solver-driven preview behave
identically under any lock value, their results merely carrying it along. -/
theorem lock_gating (s : Session) (now t : Nat) (uid dn : String) (role : Role)
    (value : String) (aId bId : String) (force : Bool) (gw : Option Int)
    (attempts : Nat) (rng : List Nat) (pnow : Nat)
    (hl : s.lockAt = some t) (ht : t ≠ 0) (hnow : t ≤ now) :
    toggleHandler s now uid dn role = .error .locked ∧
    leaveHandler s now uid = .error .locked ∧
    classSelectHandler s now uid dn role value = .error .locked ∧
    (∀ x, mplusSwap { s with lockAt := x } aId bId force =
      ({ (mplusSwap s aId bId force).1 with lockAt := x },
        (mplusSwap s aId bId force).2)) ∧
    (∀ x, mplusPreview { s with lockAt := x } gw attempts rng pnow =
      { mplusPreview s gw attempts rng pnow with lockAt := x }) := by
  obtain ⟨sid, stitle, sdesc, slock, ssign, screated, sdraft⟩ := s
  simp only at hl
  have hlocked : isLockedNow slock now = true := by
    rw [hl]
    unfold isLockedNow
    simp [ht, hnow]
  refine ⟨?_, ?_, ?_, ?_, ?_⟩
  · unfold toggleHandler
    rw [if_pos (by simp [hlocked])]
  · unfold leaveHandler
    rw [if_pos (by simp [hlocked])]
  · unfold classSelectHandler
    rw [if_pos (by simp [hlocked])]
  · intro x
    unfold mplusSwap
    dsimp only
    cases sdraft with
    | none => rfl
    | some draft =>
      dsimp only
      cases findPlayerInDraft draft aId with
      | none => cases findPlayerInDraft draft bId <;> rfl
      | some aLoc =>
        cases findPlayerInDraft draft bId with
        | none => rfl
        | some bLoc =>
          dsimp only
          repeat' split
          all_goals rfl
  · intro x
    unfold mplusPreview
    rfl

/-- Counterexample to C5 as stated: with `lockAt = 0` (non-null, and
`now >= lockAt`) the JS truthiness check `session.lockAt && ...` is falsy, so
the toggle goes through and mutates the roster instead of failing locked. -/
theorem lock_gating_zero_counterexample :
    exLockedZero.lockAt = some 0 ∧ (0 : Nat) ≤ 100 ∧
    (toggleHandler exLockedZero 100 "u" "U" Role.HEAL).toOption =
      some exLockedZeroToggled := by
  refine ⟨rfl, by decide, rfl⟩

/-- Witness for the amended C5 at a concrete locked session. -/
theorem lock_gating_witness :
    (exLocked50.lockAt = some 50 ∧ (50 : Nat) ≠ 0 ∧ 50 ≤ 100) ∧
    (toggleHandler exLocked50 100 "u" "U" Role.HEAL = .error .locked ∧
      leaveHandler exLocked50 100 "u" = .error .locked ∧
      classSelectHandler exLocked50 100 "u" "U" Role.HEAL "MAGE" = .error .locked ∧
      (∀ x, mplusSwap { exLocked50 with lockAt := x } "u" "v" false =
        ({ (mplusSwap exLocked50 "u" "v" false).1 with lockAt := x },
          (mplusSwap exLocked50 "u" "v" false).2)) ∧
      (∀ x, mplusPreview { exLocked50 with lockAt := x } none 1 [] 7 =
        { mplusPreview exLocked50 none 1 [] 7 with lockAt := x })) :=
  ⟨⟨rfl, by decide, by decide⟩,
    lock_gating exLocked50 100 50 "u" "U" Role.HEAL "MAGE" "u" "v" false none 1 [] 7
      rfl (by decide) (by decide)⟩

/-- C6: when `force` is false and either destination role check fails, the
swap handler replies `RoleMismatch` and returns the session — draft included
— byte-for-byte unchanged (the source replies and returns before any
mutation or save). -/
theorem swap_reject_atomic (s : Session) (draft : Draft) (aId bId : String)
    (aLoc bLoc : Loc)
    (hd : s.lastDraft = some draft)
    (ha : findPlayerInDraft draft aId = some aLoc)
    (hb : findPlayerInDraft draft bId = some bLoc)
    (hfail : ((if slotNameOf bLoc = SlotName.bench then true
        else roleAllowedForSlot (getAt draft aLoc) (slotNameOf bLoc)) = false) ∨
      ((if slotNameOf aLoc = SlotName.bench then true
        else roleAllowedForSlot (getAt draft bLoc) (slotNameOf aLoc)) = false)) :
    mplusSwap s aId bId false = (s, .roleMismatch) := by
  unfold mplusSwap
  rw [hd]
  dsimp only
  rw [ha, hb]
  dsimp only
  rw [if_pos ?_]
  rcases hfail with hf | hf
  · rw [hf]
    simp
  · rw [hf]
    simp

/-- Witness for C6: swapping the DPS-only bench player into the tank slot
without `force` is rejected and the session is untouched. -/
theorem swap_reject_atomic_witness :
    (exSwapSession.lastDraft = some exDraft ∧
      findPlayerInDraft exDraft "w" = some (.bench 0) ∧
      findPlayerInDraft exDraft "x" = some (.group 0 .tank) ∧
      (((if slotNameOf (.group 0 .tank) = SlotName.bench then true
          else roleAllowedForSlot (getAt exDraft (.bench 0))
            (slotNameOf (.group 0 .tank))) = false) ∨
        ((if slotNameOf (Loc.bench 0) = SlotName.bench then true
          else roleAllowedForSlot (getAt exDraft (.group 0 .tank))
            (slotNameOf (Loc.bench 0))) = false))) ∧
    mplusSwap exSwapSession "w" "x" false = (exSwapSession, .roleMismatch) :=
  ⟨⟨rfl, by decide, by decide, Or.inl (by decide)⟩,
    swap_reject_atomic exSwapSession exDraft "w" "x" (.bench 0) (.group 0 .tank)
      rfl (by decide) (by decide) (Or.inl (by decide))⟩

/-- Writing a list element that is already there changes nothing. -/
theorem set_getElem_self {α : Type _} :
    ∀ (l : List α) (i : Nat) (a : α), l[i]? = some a → l.set i a = l
  | [], _, _, h => by simp at h
  | x :: t, 0, a, h => by
    have : x = a := by simpa using h
    simp [this]
  | x :: t, i + 1, a, h => by
    have h' : t[i]? = some a := by simpa using h
    simp [set_getElem_self t i a h']

/-- Reading a freshly written slot. -/
theorem slotGet_slotSet_self (g : DraftGroup) (s : GSlot) (v : Option DraftPlayer) :
    slotGet (slotSet g s v) s = v := by
  cases s <;> rfl

/-- Reading another slot after a write. -/
theorem slotGet_slotSet_ne (g : DraftGroup) {s s' : GSlot} (v : Option DraftPlayer)
    (h : s' ≠ s) : slotGet (slotSet g s v) s' = slotGet g s' := by
  cases s <;> cases s' <;> first | rfl | exact absurd rfl h

/-- Overwriting the same slot keeps only the last write. -/
theorem slotSet_slotSet_self (g : DraftGroup) (s : GSlot) (v w : Option DraftPlayer) :
    slotSet (slotSet g s v) s w = slotSet g s w := by
  cases s <;> rfl

/-- Writes to distinct slots commute. -/
theorem slotSet_comm (g : DraftGroup) {s s' : GSlot} (v w : Option DraftPlayer)
    (h : s ≠ s') : slotSet (slotSet g s v) s' w = slotSet (slotSet g s' w) s v := by
  cases s <;> cases s' <;> first | exact absurd rfl h | rfl

/-- Writing a slot's current contents back changes nothing. -/
theorem slotSet_self_eq (g : DraftGroup) (s : GSlot) (p : DraftPlayer)
    (h : slotGet g s = some p) : slotSet g s (some p) = g := by
  cases s <;> (simp only [slotGet] at h; simp [slotSet, ← h])

/-- Reading back a written, previously occupied location. -/
theorem getAt_setAt_self {d : Draft} {l : Loc} {q : DraftPlayer}
    (hocc : getAt d l = some q) (p : DraftPlayer) :
    getAt (setAt d l (some p)) l = some p := by
  cases l with
  | group gi s =>
    simp only [getAt] at hocc
    simp only [getAt, setAt]
    cases hg : d.groups[gi]? with
    | none => rw [hg] at hocc; simp at hocc
    | some g =>
      dsimp only
      have hlt : gi < d.groups.length := by
        by_contra hge
        rw [List.getElem?_eq_none (by omega)] at hg
        exact Option.noConfusion hg
      simp only [List.getElem?_set_self hlt]
      simp [slotGet_slotSet_self]
  | bench bi =>
    simp only [getAt] at hocc
    simp only [getAt, setAt]
    have hlt : bi < d.bench.length := by
      by_contra hge
      rw [List.getElem?_eq_none (by omega)] at hocc
      exact Option.noConfusion hocc
    simp only [List.getElem?_set_self hlt]

/-- Reading any other location after a write. -/
theorem getAt_setAt_ne {d : Draft} {l l' : Loc} (v : Option DraftPlayer)
    (hne : l' ≠ l) : getAt (setAt d l v) l' = getAt d l' := by
  cases l with
  | group gi s =>
    cases hg : d.groups[gi]? with
    | none =>
      simp only [setAt, hg]
    | some g =>
      cases l' with
      | group gi' s' =>
        simp only [getAt, setAt, hg]
        by_cases hgi : gi' = gi
        · subst hgi
          have hs : s' ≠ s := by
            intro he
            exact hne (by rw [he])
          have hlt : gi' < d.groups.length := by
            by_contra hge
            rw [List.getElem?_eq_none (by omega)] at hg
            exact Option.noConfusion hg
          rw [List.getElem?_set_self hlt, hg]
          simp [slotGet_slotSet_ne g v hs]
        · rw [List.getElem?_set_ne (by omega)]
      | bench bi =>
        simp [getAt, setAt, hg]
  | bench bi =>
    cases v with
    | none => rfl
    | some p =>
      cases l' with
      | group gi' s' =>
        simp [getAt, setAt]
      | bench bi' =>
        have hbi : bi' ≠ bi := by
          intro he
          exact hne (by rw [he])
        simp [getAt, setAt, List.getElem?_set_ne (by omega : bi ≠ bi')]

/-- Overwriting the same location keeps only the last write. -/
theorem setAt_setAt_self (d : Draft) (l : Loc) (p q : DraftPlayer) :
    setAt (setAt d l (some p)) l (some q) = setAt d l (some q) := by
  cases l with
  | group gi s =>
    cases hg : d.groups[gi]? with
    | none => simp only [setAt, hg]
    | some g =>
      have hlt : gi < d.groups.length := by
        by_contra hge
        rw [List.getElem?_eq_none (by omega)] at hg
        exact Option.noConfusion hg
      simp only [setAt, hg]
      simp only [List.getElem?_set_self hlt]
      simp [List.set_set, slotSet_slotSet_self]
  | bench bi =>
    simp [setAt, List.set_set]

/-- Writing a location's current occupant back changes nothing. -/
theorem setAt_self_eq {d : Draft} {l : Loc} {p : DraftPlayer}
    (hocc : getAt d l = some p) : setAt d l (some p) = d := by
  cases l with
  | group gi s =>
    simp only [getAt] at hocc
    cases hg : d.groups[gi]? with
    | none => simp only [setAt, hg]
    | some g =>
      rw [hg] at hocc
      simp only [Option.some_bind] at hocc
      simp only [setAt, hg]
      rw [slotSet_self_eq g s p hocc, set_getElem_self d.groups gi g hg]
  | bench bi =>
    simp only [getAt] at hocc
    simp only [setAt]
    rw [set_getElem_self d.bench bi p hocc]

/-- Writes to distinct locations commute. -/
theorem setAt_comm {d : Draft} {l l' : Loc} (p q : DraftPlayer) (hne : l ≠ l') :
    setAt (setAt d l (some p)) l' (some q) = setAt (setAt d l' (some q)) l (some p) := by
  cases l with
  | group gi s =>
    cases l' with
    | group gi' s' =>
      by_cases hgi : gi = gi'
      · subst hgi
        have hs : s ≠ s' := by
          intro he
          exact hne (by rw [he])
        cases hg : d.groups[gi]? with
        | none => simp only [setAt, hg]
        | some g =>
          have hlt : gi < d.groups.length := by
            by_contra hge
            rw [List.getElem?_eq_none (by omega)] at hg
            exact Option.noConfusion hg
          simp only [setAt, hg, List.getElem?_set_self hlt]
          simp [List.set_set, slotSet_comm g _ _ hs]
      · cases hg : d.groups[gi]? with
        | none =>
          cases hg' : d.groups[gi']? with
          | none => simp only [setAt, hg, hg']
          | some g' =>
            simp only [setAt, hg, hg']
            rw [List.getElem?_set_ne (by omega : gi' ≠ gi), hg]
        | some g =>
          cases hg' : d.groups[gi']? with
          | none =>
            simp only [setAt, hg, hg']
            rw [List.getElem?_set_ne (by omega : gi ≠ gi'), hg']
          | some g' =>
            simp only [setAt, hg, hg']
            rw [List.getElem?_set_ne (by omega : gi ≠ gi'), hg',
              List.getElem?_set_ne (by omega : gi' ≠ gi), hg]
            simp [List.set_comm _ _ _ (by omega : gi ≠ gi')]
    | bench bi =>
      cases hg : d.groups[gi]? with
      | none => simp only [setAt, hg]
      | some g => simp only [setAt, hg]
  | bench bi =>
    cases l' with
    | group gi' s' =>
      cases hg' : d.groups[gi']? with
      | none => simp only [setAt, hg']
      | some g' => simp only [setAt, hg']
    | bench bi' =>
      have hbi : bi ≠ bi' := by
        intro he
        exact hne (by rw [he])
      simp [setAt, List.set_comm _ _ _ hbi]

/-- Rehydration preserves a reference's participant id. -/
theorem hydratePlayer_id (sg : Signups) (p : DraftPlayer) :
    (hydratePlayer sg p).id = p.id := by
  unfold hydratePlayer
  cases alistGet sg p.id with
  | none => rfl
  | some info =>
    dsimp only
    cases info.classes with
    | none => rfl
    | some c => rfl

/-- Rehydrating twice is the same as once. -/
theorem hydratePlayer_idem (sg : Signups) (p : DraftPlayer) :
    hydratePlayer sg (hydratePlayer sg p) = hydratePlayer sg p := by
  unfold hydratePlayer
  cases hq : alistGet sg p.id with
  | none => simp [hq]
  | some info =>
    cases hc : info.classes with
    | none => simp [hq, hc]
    | some c => simp [hq, hc]

/-- Reading a location of the rehydrated draft. -/
theorem getAt_hydrate (sg : Signups) (d : Draft) (l : Loc) :
    getAt (hydrateDraft sg d) l = (getAt d l).map (hydratePlayer sg) := by
  cases l with
  | group gi s =>
    simp only [getAt, hydrateDraft, List.getElem?_map]
    cases d.groups[gi]? with
    | none => rfl
    | some g =>
      simp only [Option.map_some, Option.some_bind]
      cases s <;> (cases hx : slotGet g _ <;> simp [hydrateGroup, slotGet] at hx ⊢) <;> simp [hx]
  | bench bi =>
    simp [getAt, hydrateDraft, List.getElem?_map]

/-- Hydrating commutes slot-wise with a group write. -/
theorem hydrateGroup_slotSet (sg : Signups) (g : DraftGroup) (s : GSlot)
    (v : Option DraftPlayer) :
    hydrateGroup sg (slotSet g s v) =
      slotSet (hydrateGroup sg g) s (v.map (hydratePlayer sg)) := by
  cases s <;> rfl

/-- Hydrating commutes with a location write. -/
theorem hydrate_setAt (sg : Signups) (d : Draft) (l : Loc) (p : DraftPlayer) :
    hydrateDraft sg (setAt d l (some p)) =
      setAt (hydrateDraft sg d) l (some (hydratePlayer sg p)) := by
  cases l with
  | group gi s =>
    cases hg : d.groups[gi]? with
    | none =>
      have hg' : (hydrateDraft sg d).groups[gi]? = none := by
        simp [hydrateDraft, List.getElem?_map, hg]
      simp only [setAt, hg, hg']
    | some g =>
      have hg' : (hydrateDraft sg d).groups[gi]? = some (hydrateGroup sg g) := by
        simp [hydrateDraft, List.getElem?_map, hg]
      simp only [setAt, hg, hg']
      unfold hydrateDraft
      simp only [List.map_set, hydrateGroup_slotSet]
      rfl
  | bench bi =>
    unfold hydrateDraft setAt
    simp [List.map_set]

/-- Rehydrating an already rehydrated optional occupant is a no-op. -/
theorem optionMap_hydrate_idem (sg : Signups) (o : Option DraftPlayer) :
    (o.map (hydratePlayer sg)).map (hydratePlayer sg) = o.map (hydratePlayer sg) := by
  cases o <;> simp [hydratePlayer_idem]

/-- Rehydrating a group twice is the same as once. -/
theorem hydrateGroup_idem (sg : Signups) (g : DraftGroup) :
    hydrateGroup sg (hydrateGroup sg g) = hydrateGroup sg g := by
  unfold hydrateGroup
  simp only [DraftGroup.mk.injEq, Option.map_map]
  refine ⟨?_, ?_, ?_, ?_, ?_⟩ <;>
    exact Option.map_congr (fun p _ => hydratePlayer_idem sg p)

/-- Hydrating a draft twice is the same as once. -/
theorem hydrateDraft_idem (sg : Signups) (d : Draft) :
    hydrateDraft sg (hydrateDraft sg d) = hydrateDraft sg d := by
  unfold hydrateDraft
  simp only [Draft.mk.injEq, List.map_map, true_and]
  constructor
  · exact List.map_congr_left (fun g _ => hydrateGroup_idem sg g)
  · exact List.map_congr_left (fun p _ => hydratePlayer_idem sg p)

/-- A generic fact: a satisfied, unique element is what `find?` returns is
not needed; we only need that `find?` succeeds on a satisfied member. -/
theorem find?_isSome_of_mem {α : Type _} {p : α → Bool} {l : List α} {a : α}
    (ha : a ∈ l) (hp : p a = true) : (l.find? p).isSome := by
  induction l with
  | nil => simp at ha
  | cons x t ih =>
    rw [List.find?_cons]
    rcases List.mem_cons.mp ha with h | h
    · subst h
      rw [hp]
      rfl
    · cases hx : p x
      · exact ih h
      · rfl

/-- `findInGroup` soundness: the found slot holds the id. -/
theorem findInGroup_some {g : DraftGroup} {uid : String} {s : GSlot}
    (h : findInGroup g uid = some s) :
    ∃ p, slotGet g s = some p ∧ p.id = uid := by
  have hp := List.find?_some h
  cases hx : slotGet g s with
  | none => rw [hx] at hp; simp at hp
  | some p =>
    rw [hx] at hp
    simp only [decide_eq_true_eq] at hp
    exact ⟨p, rfl, hp⟩

/-- `findInGroup` completeness: an occupied slot makes the scan succeed. -/
theorem findInGroup_isSome {g : DraftGroup} {uid : String} {s : GSlot}
    {p : DraftPlayer} (hx : slotGet g s = some p) (hid : p.id = uid) :
    (findInGroup g uid).isSome := by
  have hmem : s ∈ gslots := by cases s <;> simp [gslots]
  apply find?_isSome_of_mem hmem
  rw [hx]
  simpa using hid

/-- `findInGroups` soundness. -/
theorem findInGroups_some :
    ∀ (gs : List DraftGroup) (gi0 : Nat) (uid : String) (loc : Loc),
      findInGroups gs gi0 uid = some loc →
      ∃ j g s p, loc = .group (gi0 + j) s ∧ gs[j]? = some g ∧
        slotGet g s = some p ∧ p.id = uid
  | [], _, _, _, h => by simp [findInGroups] at h
  | g :: gs, gi0, uid, loc, h => by
    rw [findInGroups] at h
    cases hf : findInGroup g uid with
    | some s =>
      rw [hf] at h
      simp only [Option.some.injEq] at h
      obtain ⟨p, hx, hid⟩ := findInGroup_some hf
      exact ⟨0, g, s, p, by simpa using h.symm, by simp, hx, hid⟩
    | none =>
      rw [hf] at h
      obtain ⟨j, g', s, p, hloc, hg, hx, hid⟩ := findInGroups_some gs (gi0 + 1) uid loc h
      exact ⟨j + 1, g', s, p, by rw [hloc]; congr 1; omega, by simpa using hg, hx, hid⟩

/-- `findInGroups` completeness. -/
theorem findInGroups_isSome :
    ∀ (gs : List DraftGroup) (gi0 : Nat) (uid : String) (j : Nat) (g : DraftGroup)
      (s : GSlot) (p : DraftPlayer),
      gs[j]? = some g → slotGet g s = some p → p.id = uid →
      (findInGroups gs gi0 uid).isSome
  | [], _, _, j, _, _, _, hg, _, _ => by simp at hg
  | g0 :: gs, gi0, uid, j, g, s, p, hg, hx, hid => by
    rw [findInGroups]
    cases hf : findInGroup g0 uid with
    | some s' => rfl
    | none =>
      cases j with
      | zero =>
        have : g0 = g := by simpa using hg
        subst this
        have := findInGroup_isSome hx hid
        rw [hf] at this
        simp at this
      | succ j' =>
        exact findInGroups_isSome gs (gi0 + 1) uid j' g s p (by simpa using hg) hx hid

/-- `findBench` soundness. -/
theorem findBench_some :
    ∀ (bs : List DraftPlayer) (bi0 : Nat) (uid : String) (loc : Loc),
      findBench bs bi0 uid = some loc →
      ∃ j p, loc = .bench (bi0 + j) ∧ bs[j]? = some p ∧ p.id = uid
  | [], _, _, _, h => by simp [findBench] at h
  | b :: bs, bi0, uid, loc, h => by
    rw [findBench] at h
    split at h
    next hid =>
      simp only [Option.some.injEq] at h
      exact ⟨0, b, by simpa using h.symm, by simp, hid⟩
    next hid =>
      obtain ⟨j, p, hloc, hb, hpid⟩ := findBench_some bs (bi0 + 1) uid loc h
      exact ⟨j + 1, p, by rw [hloc]; congr 1; omega, by simpa using hb, hpid⟩

/-- `findBench` completeness. -/
theorem findBench_isSome :
    ∀ (bs : List DraftPlayer) (bi0 : Nat) (uid : String) (j : Nat) (p : DraftPlayer),
      bs[j]? = some p → p.id = uid → (findBench bs bi0 uid).isSome
  | [], _, _, j, _, hb, _ => by simp at hb
  | b :: bs, bi0, uid, j, p, hb, hid => by
    rw [findBench]
    split
    · rfl
    next hne =>
      cases j with
      | zero =>
        have : b = p := by simpa using hb
        subst this
        exact absurd hid hne
      | succ j' =>
        exact findBench_isSome bs (bi0 + 1) uid j' p (by simpa using hb) hid

/-- `findPlayerInDraft` soundness: the reported location holds the id. -/
theorem findPlayerInDraft_some {d : Draft} {uid : String} {l : Loc}
    (h : findPlayerInDraft d uid = some l) :
    ∃ p, getAt d l = some p ∧ p.id = uid := by
  unfold findPlayerInDraft at h
  cases hg : findInGroups d.groups 0 uid with
  | some l' =>
    rw [hg] at h
    simp only [Option.some.injEq] at h
    subst h
    obtain ⟨j, g, s, p, hloc, hj, hx, hid⟩ := findInGroups_some d.groups 0 uid l' hg
    subst hloc
    refine ⟨p, ?_, hid⟩
    simp only [getAt, Nat.zero_add, hj, Option.some_bind, hx]
  | none =>
    rw [hg] at h
    obtain ⟨j, p, hloc, hj, hid⟩ := findBench_some d.bench 0 uid l h
    subst hloc
    refine ⟨p, ?_, hid⟩
    simpa [getAt] using hj

/-- `findPlayerInDraft` finds the unique occupied location of an id. -/
theorem findPlayerInDraft_found {d : Draft} {uid : String} {l : Loc}
    {p : DraftPlayer}
    (hocc : getAt d l = some p) (hid : p.id = uid)
    (huniq : ∀ l' p', getAt d l' = some p' → p'.id = uid → l' = l) :
    findPlayerInDraft d uid = some l := by
  have hsome : (findPlayerInDraft d uid).isSome := by
    unfold findPlayerInDraft
    cases l with
    | group gi s =>
      simp only [getAt] at hocc
      cases hg : d.groups[gi]? with
      | none => rw [hg] at hocc; simp at hocc
      | some g =>
        rw [hg] at hocc
        simp only [Option.some_bind] at hocc
        have := findInGroups_isSome d.groups 0 uid gi g s p hg hocc hid
        cases hf : findInGroups d.groups 0 uid with
        | some l' => rfl
        | none => rw [hf] at this; simp at this
    | bench bi =>
      simp only [getAt] at hocc
      cases hf : findInGroups d.groups 0 uid with
      | some l' => rfl
      | none => exact findBench_isSome d.bench 0 uid bi p hocc hid
  cases hf : findPlayerInDraft d uid with
  | none => rw [hf] at hsome; simp at hsome
  | some l' =>
    obtain ⟨p', hocc', hid'⟩ := findPlayerInDraft_some hf
    rw [huniq l' p' hocc' hid']

/-- C7 (amended): swapping the same two placed participants twice restores
every position, but the success path rehydrates class snapshots from the
live signups, so the result is the rehydrated original draft (identical to
the original exactly when its class data already agrees with the signups). -/
theorem swap_involution (s : Session) (d : Draft) (aId bId : String) (la lb : Loc)
    (force : Bool)
    (hd : s.lastDraft = some d)
    (huniq : UniqueOcc d)
    (hne : aId ≠ bId)
    (ha : findPlayerInDraft d aId = some la)
    (hb : findPlayerInDraft d bId = some lb)
    (hrep₁ : (mplusSwap s aId bId force).2 = .swapped)
    (hrep₂ : (mplusSwap (mplusSwap s aId bId force).1 aId bId force).2 = .swapped) :
    (mplusSwap (mplusSwap s aId bId force).1 aId bId force).1 =
      { s with lastDraft := some (hydrateDraft s.signups d) } := by
  obtain ⟨pa, hpa, hpaid⟩ := findPlayerInDraft_some ha
  obtain ⟨pb, hpb, hpbid⟩ := findPlayerInDraft_some hb
  have hlane : la ≠ lb := by
    intro he
    rw [he, hpb] at hpa
    apply hne
    rw [← hpaid, ← hpbid]
    rw [(Option.some.injEq _ _).mp hpa]
  -- the first call either rejects or swaps and rehydrates
  have hcall₁ : mplusSwap s aId bId force = (s, .roleMismatch) ∨
      mplusSwap s aId bId force =
        ({ s with lastDraft := some (hydrateDraft s.signups
          (setAt (setAt d la (some pb)) lb (some pa))) }, .swapped) := by
    unfold mplusSwap
    rw [hd]
    dsimp only
    rw [ha, hb]
    dsimp only
    rw [hpa, hpb]
    by_cases hc : (!force &&
        (!(if slotNameOf lb = SlotName.bench then true
            else roleAllowedForSlot (some pa) (slotNameOf lb)) ||
         !(if slotNameOf la = SlotName.bench then true
            else roleAllowedForSlot (some pb) (slotNameOf la)))) = true
    · rw [if_pos hc]
      exact Or.inl rfl
    · rw [if_neg hc]
      exact Or.inr rfl
  rcases hcall₁ with hcall₁ | hcall₁
  · rw [hcall₁] at hrep₁
    simp at hrep₁
  rw [hcall₁] at hrep₂ ⊢
  dsimp only at hrep₂ ⊢
  -- names for the intermediate drafts
  have hOcc0 : getAt (setAt d la (some pb)) lb = some pb := by
    rw [getAt_setAt_ne _ (Ne.symm hlane)]
    exact hpb
  have hOcc1 : getAt (setAt (setAt d la (some pb)) lb (some pa)) lb = some pa :=
    getAt_setAt_self hOcc0 pa
  have hOcc2 : getAt (setAt (setAt d la (some pb)) lb (some pa)) la = some pb := by
    rw [getAt_setAt_ne _ hlane]
    exact getAt_setAt_self hpa pb
  have hOccO : ∀ l', l' ≠ la → l' ≠ lb →
      getAt (setAt (setAt d la (some pb)) lb (some pa)) l' = getAt d l' := by
    intro l' h1 h2
    rw [getAt_setAt_ne _ h2, getAt_setAt_ne _ h1]
  have hXlb : getAt (hydrateDraft s.signups
      (setAt (setAt d la (some pb)) lb (some pa))) lb =
      some (hydratePlayer s.signups pa) := by
    rw [getAt_hydrate, hOcc1]
    rfl
  have hXla : getAt (hydrateDraft s.signups
      (setAt (setAt d la (some pb)) lb (some pa))) la =
      some (hydratePlayer s.signups pb) := by
    rw [getAt_hydrate, hOcc2]
    rfl
  -- locating the two ids in the hydrated swapped draft
  have haX : findPlayerInDraft (hydrateDraft s.signups
      (setAt (setAt d la (some pb)) lb (some pa))) aId = some lb := by
    refine findPlayerInDraft_found hXlb (by rw [hydratePlayer_id]; exact hpaid) ?_
    intro l' p' hg hid'
    by_cases h2 : l' = lb
    · exact h2
    by_cases h1 : l' = la
    · subst h1
      rw [hXla] at hg
      have hp' : p' = hydratePlayer s.signups pb := by simpa using hg.symm
      rw [hp', hydratePlayer_id, hpbid] at hid'
      exact absurd hid'.symm hne
    · rw [getAt_hydrate, hOccO l' h1 h2] at hg
      cases hq : getAt d l' with
      | none => rw [hq] at hg; simp at hg
      | some q =>
        rw [hq] at hg
        have hg' : hydratePlayer s.signups q = p' := by simpa using hg
        have hqid : q.id = aId := by
          rw [← hid', ← hg', hydratePlayer_id]
        exact absurd (huniq l' la q pa hq hpa (by rw [hqid, hpaid])) h1
  have hbX : findPlayerInDraft (hydrateDraft s.signups
      (setAt (setAt d la (some pb)) lb (some pa))) bId = some la := by
    refine findPlayerInDraft_found hXla (by rw [hydratePlayer_id]; exact hpbid) ?_
    intro l' p' hg hid'
    by_cases h1 : l' = la
    · exact h1
    by_cases h2 : l' = lb
    · subst h2
      rw [hXlb] at hg
      have hp' : p' = hydratePlayer s.signups pa := by simpa using hg.symm
      rw [hp', hydratePlayer_id, hpaid] at hid'
      exact absurd hid' hne
    · rw [getAt_hydrate, hOccO l' h1 h2] at hg
      cases hq : getAt d l' with
      | none => rw [hq] at hg; simp at hg
      | some q =>
        rw [hq] at hg
        have hg' : hydratePlayer s.signups q = p' := by simpa using hg
        have hqid : q.id = bId := by
          rw [← hid', ← hg', hydratePlayer_id]
        exact absurd (huniq l' lb q pb hq hpb (by rw [hqid, hpbid])) h2
  -- the second call either rejects or swaps back and rehydrates
  have hcall₂ : mplusSwap { s with lastDraft := some (hydrateDraft s.signups
        (setAt (setAt d la (some pb)) lb (some pa))) } aId bId force =
      ({ s with lastDraft := some (hydrateDraft s.signups
          (setAt (setAt d la (some pb)) lb (some pa))) }, .roleMismatch) ∨
      mplusSwap { s with lastDraft := some (hydrateDraft s.signups
        (setAt (setAt d la (some pb)) lb (some pa))) } aId bId force =
      ({ s with lastDraft := some (hydrateDraft s.signups (setAt (setAt
          (hydrateDraft s.signups (setAt (setAt d la (some pb)) lb (some pa)))
          lb (some (hydratePlayer s.signups pb))) la (some (hydratePlayer s.signups pa)))) },
        .swapped) := by
    unfold mplusSwap
    dsimp only
    rw [haX, hbX]
    dsimp only
    rw [hXlb, hXla]
    by_cases hc : (!force &&
        (!(if slotNameOf la = SlotName.bench then true
            else roleAllowedForSlot (some (hydratePlayer s.signups pa)) (slotNameOf la)) ||
         !(if slotNameOf lb = SlotName.bench then true
            else roleAllowedForSlot (some (hydratePlayer s.signups pb)) (slotNameOf lb)))) = true
    · rw [if_pos hc]
      exact Or.inl rfl
    · rw [if_neg hc]
      exact Or.inr rfl
  rcases hcall₂ with hcall₂ | hcall₂
  · rw [hcall₂] at hrep₂
    simp at hrep₂
  · rw [hcall₂]
    have hDla : getAt (hydrateDraft s.signups d) la =
        some (hydratePlayer s.signups pa) := by
      rw [getAt_hydrate, hpa]
      rfl
    have hDlb : getAt (hydrateDraft s.signups d) lb =
        some (hydratePlayer s.signups pb) := by
      rw [getAt_hydrate, hpb]
      rfl
    have hX : hydrateDraft s.signups (setAt (setAt d la (some pb)) lb (some pa)) =
        setAt (setAt (hydrateDraft s.signups d) la (some (hydratePlayer s.signups pb)))
          lb (some (hydratePlayer s.signups pa)) := by
      rw [hydrate_setAt, hydrate_setAt]
    have hZ : hydrateDraft s.signups (setAt (setAt
        (hydrateDraft s.signups (setAt (setAt d la (some pb)) lb (some pa)))
        lb (some (hydratePlayer s.signups pb))) la (some (hydratePlayer s.signups pa))) =
        hydrateDraft s.signups d := by
      rw [hX, setAt_setAt_self, setAt_comm _ _ hlane, setAt_setAt_self,
        setAt_self_eq hDlb, setAt_self_eq hDla, hydrateDraft_idem]
    rw [hZ]

/-- Counterexample to C7 as stated: both swaps succeed and every position is
restored, yet the resulting draft is not structurally identical to the
original — the success path rehydrated `x`'s class snapshot from the live
signups. -/
theorem swap_involution_counterexample :
    (mplusSwap exHydS "x" "y" false).2 = SwapReply.swapped ∧
    (mplusSwap (mplusSwap exHydS "x" "y" false).1 "x" "y" false).2 =
      SwapReply.swapped ∧
    (mplusSwap (mplusSwap exHydS "x" "y" false).1 "x" "y" false).1.lastDraft ≠
      some exHydDraft := by
  decide

/-- `exHydDraft` satisfies the draft occupancy invariant. -/
theorem exHydDraft_unique : UniqueOcc exHydDraft := by
  intro l₁ l₂ p₁ p₂ h₁ h₂ hid
  cases l₁ with
  | group gi s => simp [getAt, exHydDraft] at h₁
  | bench bi =>
    cases l₂ with
    | group gi' s' => simp [getAt, exHydDraft] at h₂
    | bench bi' =>
      simp only [getAt, exHydDraft] at h₁ h₂
      have hb₁ : bi < 2 := by
        by_contra hge
        rw [List.getElem?_eq_none (by simp; omega)] at h₁
        exact Option.noConfusion h₁
      have hb₂ : bi' < 2 := by
        by_contra hge
        rw [List.getElem?_eq_none (by simp; omega)] at h₂
        exact Option.noConfusion h₂
      interval_cases bi <;> interval_cases bi' <;>
        simp only [List.getElem?_cons_zero, List.getElem?_cons_succ,
          Option.some.injEq] at h₁ h₂ <;>
        first
        | rfl
        | (subst h₁; subst h₂; exact absurd hid (by decide))

/-- Witness for the amended C7 on the two-player bench draft. -/
theorem swap_involution_witness :
    (exHydS.lastDraft = some exHydDraft ∧ "x" ≠ "y" ∧
      findPlayerInDraft exHydDraft "x" = some (.bench 0) ∧
      findPlayerInDraft exHydDraft "y" = some (.bench 1) ∧
      (mplusSwap exHydS "x" "y" false).2 = .swapped ∧
      (mplusSwap (mplusSwap exHydS "x" "y" false).1 "x" "y" false).2 = .swapped) ∧
    (mplusSwap (mplusSwap exHydS "x" "y" false).1 "x" "y" false).1 =
      { exHydS with lastDraft := some (hydrateDraft exHydS.signups exHydDraft) } :=
  ⟨⟨rfl, by decide, by decide, by decide, by decide, by decide⟩,
    swap_involution exHydS exHydDraft "x" "y" (.bench 0) (.bench 1) false rfl
      exHydDraft_unique (by decide) (by decide) (by decide) (by decide) (by decide)⟩
